import Mathlib

/-!
Verification of the saport two-phase simplex core
(AGH-Operations-Research repository).

The development embeds, over exact rationals `ℚ`:
* the `Tableaux` operations of `lab03_simplex/saport/simplex/solver.py`
  (which are also the tableau operations the general solver of
  `lab04_general_simplex-master/saport/simplex/solver.py` relies on);
* the symbolic model layer (variables, expressions, constraints,
  objectives), whose python sources are not part of the source snapshot
  and are therefore modelled from the specification;
* both solver generations (`lab03` plain simplex, `lab04` two-phase).

Python/numpy floating point is modelled by `ℚ`; the IEEE behaviour of
`x / 0` (signed infinity / NaN) that the leaving-variable ratio test
relies on is modelled explicitly with `WithTop ℚ` (`⊤` standing for the
"treated as +inf, never chosen as minimum unless everything is +inf"
outcome).  The non-terminating optimisation loop is modelled with
explicit fuel.
-/

namespace Saport

/-- A tableau row: the coefficients of one row of the dense simplex
table, right-hand side included as the last entry
(`lab03_simplex/saport/simplex/solver.py`, `Tableaux.table`). -/
abbrev Row := List ℚ

/-- The dense simplex table: row 0 is the cost row, the remaining rows
are the constraint rows. -/
abbrev Table := List Row

/-- `entry T r c` is `table[r, c]` (0 outside the table's extent; all
claims are stated inside it). -/
def entry (T : Table) (r c : Nat) : ℚ := (T.getD r []).getD c 0

/-- The width (number of columns) of the table, read off its first row
as numpy's `shape[1]` does for the rectangular arrays the solver
builds. -/
def width (T : Table) : Nat := (T.headD []).length

/-- A table is well-formed when it is nonempty and rectangular. -/
def WF (T : Table) : Prop := T ≠ [] ∧ ∀ row ∈ T, row.length = width T

instance (T : Table) : Decidable (WF T) := by
  unfold WF
  infer_instance

/-- Python's `list.index(min(list))` specialised to the ratio lists of
the solver: the index of the first occurrence of the minimum.
(`result.index(min(result))` in `choose_leaving_variable`, and
`np.where(arr == min(arr))[0][0]` in `choose_entering_variable` compute
exactly this.) -/
def pyMinIdx (l : List (WithTop ℚ)) : Nat :=
  l.findIdx (fun v => decide (v = l.foldl min ⊤))

/-- `Tableaux.cost_factors`: row 0 without the right-hand-side column. -/
def cost_factors (T : Table) : List ℚ := (T.headD []).dropLast

/-- `Tableaux.cost`: the right-hand side of the cost row. -/
def cost (T : Table) : ℚ := (T.headD []).getLastD 0

/-- `Tableaux.is_optimal`: every cost-row factor is `≥ 0`. -/
def is_optimal (T : Table) : Bool :=
  (cost_factors T).all (fun factor => decide (0 ≤ factor))

/-- `Tableaux.choose_entering_variable`: replace the zero cost factors
by `+inf`, then take the first index attaining the minimum. -/
def choose_entering_variable (T : Table) : Nat :=
  pyMinIdx ((cost_factors T).map
    (fun v : ℚ => if v = 0 then (⊤ : WithTop ℚ) else (v : WithTop ℚ)))

/-- `Tableaux.is_unbounded`: every entry of the column (cost row
included) is `≤ 0`. -/
def is_unbounded (T : Table) (col : Nat) : Bool :=
  (T.map (fun row => row.getD col 0)).all (fun factor => decide (factor ≤ 0))

/-- One candidate ratio of the minimum-ratio test, i.e. the combined
effect of numpy's `a / b` (IEEE: `a/0` is `±inf` or NaN) followed by the
list comprehension `[a if a >= 0 else float('inf') for a in result]`:
the row keeps the finite value `a / b` exactly when `b ≠ 0` and
`a / b ≥ 0`; in every other case (negative ratio, `±inf`, NaN — NaN
fails `a >= 0`) the row ends up at `+inf`. -/
def pyDivRatio (a b : ℚ) : WithTop ℚ :=
  if b ≠ 0 ∧ 0 ≤ a / b then ((a / b : ℚ) : WithTop ℚ) else ⊤

/-- `Tableaux.choose_leaving_variable`: minimum-ratio test over the
constraint rows (`offset = 1` skips the cost row), returning the row
index of the first minimal ratio. -/
def choose_leaving_variable (T : Table) (col : Nat) : Nat :=
  let a := (T.drop 1).map (fun row => row.getLastD 0)
  let b := (T.drop 1).map (fun row => row.getD col 0)
  pyMinIdx (List.zipWith pyDivRatio a b) + 1

/-- Statement 1 of `Tableaux.pivot`:
`self.table[row, :] /= old_table[row, col]` — divide the pivot row by
the pre-pivot pivot element. -/
def pivot_divide_row (T : Table) (row col : Nat) : Table :=
  T.mapIdx (fun r rowL =>
    if r = row then rowL.map (· / entry T row col) else rowL)

/-- Statement 2 of `Tableaux.pivot`:
`self.table[:, col] = np.array([0 if i != row else 1 ...])` — overwrite
the pivot column with the unit vector of the pivot row. -/
def pivot_set_unit_column (row col : Nat) (X : Table) : Table :=
  X.mapIdx (fun r rowL => rowL.mapIdx
    (fun c v => if c = col then (if r = row then 1 else 0) else v))

/-- Statement 3 of `Tableaux.pivot` (the double loop): every entry
outside the pivot row and pivot column is recomputed from the pre-pivot
snapshot `old_table` (= `T`) as
`old[r,c] + (-old[r,col]) * (old[row,c] / old[row,col])`. -/
def pivot_eliminate (T : Table) (row col : Nat) (X : Table) : Table :=
  X.mapIdx (fun r rowL => rowL.mapIdx
    (fun c v =>
      if r = row ∨ c = col then v
      else entry T r c - entry T r col * (entry T row c / entry T row col)))

/-- `Tableaux.pivot`, translated statement by statement over the
pre-pivot snapshot `T`. -/
def pivot (T : Table) (row col : Nat) : Table :=
  pivot_eliminate T row col (pivot_set_unit_column row col (pivot_divide_row T row col))

/-- Python list assignment `l[i] = v` with negative-index wrap-around
(`basis[row - 1] = c` hits `basis[-1]`, the last slot, when `row = 0`). -/
def pySet (l : List Int) (i : Int) (v : Int) : List Int :=
  if i < 0 then l.set (l.length + i).toNat v else l.set i.toNat v

/-- The loop body of `Tableaux.extract_basis`: a column whose minimum
is 0, maximum is 1 and sum is 1 is recorded as basic for the row
holding its first 1 (`np.where(column == 1.0)[0][0]`), via the
Python-indexed slot `basis[row - 1]`. -/
def basis_step (T : Table) (basis : List Int) (c : Nat) : List Int :=
  let column := T.map (fun row => row.getD c 0)
  if column.min? = some 0 ∧ column.max? = some 1 ∧ column.sum = 1 then
    let row := column.findIdx (fun v => decide (v = 1))
    pySet basis ((row : Int) - 1) (c : Int)
  else basis

/-- `Tableaux.extract_basis`: scan the columns left to right applying
`basis_step`; slots never claimed keep the initial `-1`. -/
def extract_basis (T : Table) : List Int :=
  (List.range (width T - 1)).foldl (basis_step T)
    (List.replicate (T.length - 1) (-1))

/-- `Tableaux.find_variable_value`: the right-hand side of the first row
in which the column holds a 1 (`None`, i.e. `Option.none`, when the
column holds no 1 — the python function falls through and returns
`None` then). -/
def find_variable_value (column rhs : List ℚ) : Option ℚ :=
  (column.findIdx? (fun v => decide (v = 1))).map (fun i => rhs.getD i 0)

/-- `Tableaux.extract_solution`: basic columns take the right-hand side
of their unit row, non-basic columns take 0. -/
def extract_solution (T : Table) : List ℚ :=
  let variables_in_basis := extract_basis T
  let var_count := width T - 1
  (List.range var_count).map
    (fun col =>
      if Int.ofNat col ∈ variables_in_basis then
        (find_variable_value (T.map (fun row => row.getD col 0))
          (T.map (fun row => row.getLastD 0))).getD 0
      else 0)

/-- The failure taxonomy of `solve` (§7 of the specification), with an
explicit out-of-fuel outcome standing for non-termination of the
pivoting loop. -/
inductive SimplexError
  | unbounded
  | infeasible
  | fuelExhausted
deriving DecidableEq

instance {ε α : Type} [DecidableEq ε] [DecidableEq α] : DecidableEq (Except ε α) := fun
  | .error e, .error f =>
    if h : e = f then isTrue (by rw [h]) else isFalse (fun hc => h (Except.error.inj hc))
  | .error _, .ok _ => isFalse (fun hc => Except.noConfusion hc)
  | .ok _, .error _ => isFalse (fun hc => Except.noConfusion hc)
  | .ok a, .ok b =>
    if h : a = b then isTrue (by rw [h]) else isFalse (fun hc => h (Except.ok.inj hc))

/-- One pass of the body of the optimisation loop
(`Solver._optimize` / the `while` loop of the lab03 `Solver.solve`):
compute the entering column, the leaving row for it, and pivot. -/
def pivotStep (T : Table) : Table :=
  pivot T (choose_leaving_variable T (choose_entering_variable T))
    (choose_entering_variable T)

/-- `Solver._optimize` (lab04) = the `while not tableaux.is_optimal()`
loop of lab03's `Solver.solve`: keep pivoting until optimal, failing
with `unbounded` when the entering column is unbounded.  The loop is
given explicit fuel; running out of fuel is reported as its own error
so that it can never be mistaken for either taxonomy outcome. -/
def optimize : Nat → Table → Except SimplexError Table
  | 0, _ => .error .fuelExhausted
  | fuel + 1, T =>
    if is_optimal T then .ok T
    else if is_unbounded T (choose_entering_variable T) then .error .unbounded
    else optimize fuel (pivotStep T)

/-! ## The symbolic model layer

The python modules `saport/simplex/expressions/{atom,expression,
constraint,objective,variable}.py` and `saport/simplex/model.py` are not
part of the source snapshot (only `lab02`'s `atom.py` is).  The
definitions below are therefore modelled from the specification:
§3 (data model), §4.1 (expression contract) and §6 (model construction
API), plus `atom.py` for the atom arithmetic. -/

/-- Modelled from the spec (§3): an atom `(variable, factor)`; the
variable is held by its index, the sole addressing key. -/
structure Atom where
  var : Nat
  factor : ℚ
deriving DecidableEq

/-- Modelled from the spec (§3): an expression is an ordered sum of
atoms; atoms of the same variable are not merged until a dense factor
vector is materialised. -/
structure Expression where
  atoms : List Atom
deriving DecidableEq

/-- Modelled from the spec (§3): constraint relations.  The numeric
`value` of each relation (used by lab03's
`slack_var * c.ConstraintType.LE.value * -1`) follows the convention
that makes the spec's "slack coefficient +1" come out: `LE = -1`,
`EQ = 0`, `GE = 1`. -/
inductive ConstraintType
  | le
  | eq
  | ge
deriving DecidableEq

/-- The numeric value of the relation enum (see `ConstraintType`). -/
def ConstraintType.value : ConstraintType → ℚ
  | .le => -1
  | .eq => 0
  | .ge => 1

/-- Modelled from the spec (§3): `(expression, relation, bound)`. -/
structure Constraint where
  expression : Expression
  type : ConstraintType
  bound : ℚ
deriving DecidableEq

/-- Modelled from the spec (§3): objective directions. -/
inductive ObjectiveType
  | min
  | max
deriving DecidableEq

/-- Modelled from the spec (§3): `(expression, direction)`. -/
structure Objective where
  expression : Expression
  type : ObjectiveType
deriving DecidableEq

/-- Modelled from the spec (§3): variable identity
`(index, name)`; the index is assigned sequentially by the owning
model. -/
structure Variable where
  index : Nat
  name : String
deriving DecidableEq

/-- Modelled from the spec (§3): a model owns the ordered variable
list, the constraints and the objective. -/
structure Model where
  «variables» : List Variable
  constraints : List Constraint
  objective : Objective
deriving DecidableEq

/-- Modelled from the spec (§3/§6): `Solution` binds an assignment
vector to a model (`lab03` `Solution.__init__`). -/
structure Solution where
  model : Model
  assignment : List ℚ
deriving DecidableEq

/-- Modelled from the spec (§4.1): `factors(model)` materialises the
dense factor vector of length `|model.variables|`, merging repeated
atoms and putting zero for absent variables. -/
def Expression.factors (e : Expression) (m : Model) : List ℚ :=
  (List.range m.variables.length).map
    (fun i => ((e.atoms.filter (fun a => a.var == i)).map Atom.factor).sum)

/-- Modelled from the spec (§4.1): `evaluate(assignment)` is the dot
product of the factors with the assigned values. -/
def Expression.evaluate (e : Expression) (assignment : List ℚ) : ℚ :=
  (e.atoms.map (fun a => a.factor * assignment.getD a.var 0)).sum

/-- Modelled from the spec (§3): unary negation of an expression
(`atom.py`: negate each factor). -/
def Expression.neg (e : Expression) : Expression :=
  ⟨e.atoms.map (fun a => ⟨a.var, -a.factor⟩)⟩

/-- Modelled from the spec (§3): scalar multiplication
(`atom.py`: multiply each factor). -/
def Expression.smul (q : ℚ) (e : Expression) : Expression :=
  ⟨e.atoms.map (fun a => ⟨a.var, q * a.factor⟩)⟩

/-- Modelled from the spec (§3): appending one atom to an expression —
the effect of `expression + var` (`coef = 1`), `expression - var`
(`coef = -1`) and `expression + var * q` (`coef = q`). -/
def Expression.addAtom (e : Expression) (v : Nat) (coef : ℚ) : Expression :=
  ⟨e.atoms ++ [⟨v, coef⟩]⟩

/-- Modelled from the spec (§3): `Objective.invert` negates the
expression and flips the direction. -/
def Objective.invert (o : Objective) : Objective :=
  ⟨o.expression.neg, match o.type with | .min => .max | .max => .min⟩

/-- Modelled from the spec (§6): the objective value is the objective
expression evaluated on the assignment
(lab03 `Solution.objective_value`). -/
def Objective.evaluate (o : Objective) (assignment : List ℚ) : ℚ :=
  o.expression.evaluate assignment

/-- Modelled from the spec (§4, step 1): `Constraint.invert` multiplies
expression and bound by `-1` and flips `≤ ↔ ≥` (`=` stays `=`). -/
def Constraint.invert (c : Constraint) : Constraint :=
  ⟨c.expression.neg,
   match c.type with | .le => .ge | .ge => .le | .eq => .eq,
   -c.bound⟩

/-- Modelled from the spec (§3/§6): `create_variable` appends a fresh
variable whose index is the current variable count, and returns it. -/
def Model.create_variable (m : Model) (name : String) : Model × Nat :=
  (⟨m.variables ++ [⟨m.variables.length, name⟩], m.constraints, m.objective⟩,
   m.variables.length)

/-- lab03 `Solution.value`: `assignment[var.index]`. -/
def Solution.value (s : Solution) (varIndex : Nat) : ℚ :=
  s.assignment.getD varIndex 0

/-- lab03 `Solution.objective_value`:
`model.objective.evaluate(assignment)`. -/
def Solution.objective_value (s : Solution) : ℚ :=
  s.model.objective.evaluate s.assignment

/-- A placeholder constraint for the (never taken) out-of-range branch
of indexed constraint updates. -/
def Constraint.dflt : Constraint := ⟨⟨[]⟩, .eq, 0⟩

/-- `Tableaux.__init__` of lab03 = `Solver._basic_initial_tableaux` of
lab04 (identical code): cost row `(-1 * objective.expression).factors`
plus rhs 0, then one row `factors ++ [bound]` per constraint. -/
def basic_initial_tableaux (m : Model) : Table :=
  ((Expression.smul (-1) m.objective.expression).factors m ++ [0])
    :: m.constraints.map (fun c => c.expression.factors m ++ [c.bound])

/-! ## The lab03 solver -/

/-- lab03 `Solver._normalize_model`, applied (as `solve` does) to a deep
copy of the caller's model: invert a MIN objective; for every
non-equality constraint create a slack variable, invert the constraint
if its bound is negative, append the slack atom with coefficient
`1 * ConstraintType.LE.value * -1` and turn the constraint into an
equality. -/
def lab03_normalize_model (m : Model) : Model :=
  let m1 :=
    if m.objective.type = .min then { m with objective := m.objective.invert } else m
  (List.range m1.constraints.length).foldl
    (fun acc i =>
      let c := acc.constraints.getD i Constraint.dflt
      if c.type ≠ .eq then
        let (acc1, s) := acc.create_variable ("s" ++ toString i)
        let c1 := if c.bound < 0 then c.invert else c
        let c2 : Constraint :=
          ⟨c1.expression.addAtom s (1 * ConstraintType.le.value * -1), .eq, c1.bound⟩
        { acc1 with constraints := acc1.constraints.set i c2 }
      else acc)
    m1

/-- lab03 `Solver.solve`: normalize a copy of the model, build the
tableau, run the pivot loop, and wrap the extracted assignment in a
`Solution` bound to the *normalized* model. -/
def lab03_solve (fuel : Nat) (m : Model) : Except SimplexError Solution :=
  let normal_model := lab03_normalize_model m
  match optimize fuel (basic_initial_tableaux normal_model) with
  | .error e => .error e
  | .ok T => .ok ⟨normal_model, extract_solution T⟩

/-! ## The lab04 (general, two-phase) solver -/

/-- lab04 `Solver._change_objective_to_max`. -/
def change_objective_to_max (m : Model) : Model :=
  if m.objective.type = .min then { m with objective := m.objective.invert } else m

/-- lab04 `Solver._change_constraints_bounds_to_nonnegative`. -/
def change_constraints_bounds_to_nonnegative (m : Model) : Model :=
  { m with constraints := m.constraints.map (fun c => if c.bound < 0 then c.invert else c) }

/-- One iteration of the `_add_slack_variables` loop: when constraint
`i` is a `≤` constraint, create a fresh slack variable, add it to the
constraint's expression with coefficient `+1`, and record the
association. -/
def add_slack_step (acc : Model × List (Nat × Nat)) (i : Nat) :
    Model × List (Nat × Nat) :=
  let c := acc.1.constraints.getD i Constraint.dflt
  if c.type = .le then
    let mdl1 := (acc.1.create_variable ("s" ++ toString i)).1
    let s := (acc.1.create_variable ("s" ++ toString i)).2
    let c2 := { c with expression := c.expression.addAtom s 1 }
    ({ mdl1 with constraints := mdl1.constraints.set i c2 },
     acc.2 ++ [(s, i)])
  else acc

/-- lab04 `Solver._add_slack_variables`: one fresh slack variable with
coefficient `+1` per `≤` constraint; returns the
`slack variable index ↦ constraint index` association. -/
def add_slack_variables (m : Model) : Model × List (Nat × Nat) :=
  (List.range m.constraints.length).foldl add_slack_step (m, [])

/-- One iteration of the `_add_surplus_variables` loop: when constraint
`i` is a `≥` constraint, create a fresh surplus variable and subtract
it from the constraint's expression. -/
def add_surplus_step (acc : Model × List (Nat × Nat)) (i : Nat) :
    Model × List (Nat × Nat) :=
  let c := acc.1.constraints.getD i Constraint.dflt
  if c.type = .ge then
    let mdl1 := (acc.1.create_variable ("s" ++ toString i)).1
    let s := (acc.1.create_variable ("s" ++ toString i)).2
    let c2 := { c with expression := c.expression.addAtom s (-1) }
    ({ mdl1 with constraints := mdl1.constraints.set i c2 },
     acc.2 ++ [(s, i)])
  else acc

/-- lab04 `Solver._add_surplus_variables`: one fresh surplus variable
with coefficient `-1` per `≥` constraint. -/
def add_surplus_variables (m : Model) : Model × List (Nat × Nat) :=
  (List.range m.constraints.length).foldl add_surplus_step (m, [])

/-- One iteration of the `_add_artificial_variables` loop: when
constraint `i` is a `≥` or `=` constraint, create a fresh artificial
variable and add it to the constraint's expression. -/
def add_artificial_step (acc : Model × List (Nat × Nat)) (i : Nat) :
    Model × List (Nat × Nat) :=
  let c := acc.1.constraints.getD i Constraint.dflt
  if c.type = .ge ∨ c.type = .eq then
    let mdl1 := (acc.1.create_variable ("R" ++ toString i)).1
    let s := (acc.1.create_variable ("R" ++ toString i)).2
    let c2 := { c with expression := c.expression.addAtom s 1 }
    ({ mdl1 with constraints := mdl1.constraints.set i c2 },
     acc.2 ++ [(s, i)])
  else acc

/-- lab04 `Solver._add_artificial_variables`: one fresh artificial
variable with coefficient `+1` per `≥` or `=` constraint. -/
def add_artificial_variables (m : Model) : Model × List (Nat × Nat) :=
  (List.range m.constraints.length).foldl add_artificial_step (m, [])

/-- lab04 `Solver._normalize_model`, applied to a deep copy of the
caller's model; besides the normalized model it yields the slack and
surplus associations the solver stores on `self`. -/
def normalize_model (m : Model) : Model × List (Nat × Nat) × List (Nat × Nat) :=
  let m2 := change_constraints_bounds_to_nonnegative (change_objective_to_max m)
  ((add_surplus_variables (add_slack_variables m2).1).1,
   (add_slack_variables m2).2,
   (add_surplus_variables (add_slack_variables m2).1).2)

/-- The branch condition of lab04 `Solver.solve`:
`len(self.slack_variables) < len(normal_model.constraints)` decides
whether the Phase I presolve runs. -/
def presolve_needed (m : Model) : Bool :=
  decide ((normalize_model m).2.1.length < (normalize_model m).1.constraints.length)

/-- lab04 `Solver._prepare_first_phase_objective`: zero every factor of
the (copied) objective expression, then subtract every artificial
variable. -/
def prepare_first_phase_objective (m : Model) (arts : List (Nat × Nat)) : Model :=
  { m with objective :=
      ⟨⟨(m.objective.expression.atoms.map (fun a => ⟨a.var, 0⟩)) ++
          arts.map (fun p => ⟨p.1, -1⟩),⟩,
       m.objective.type⟩ }

/-- Python column access with negative-index wrap-around (numpy
`table[:, col]` for a possibly negative `col`). -/
def pyColIdx (w : Nat) (i : Int) : Nat :=
  if i < 0 then ((w : Int) + i).toNat else i.toNat

/-- lab04 `Solver._fix_missing_basis`: starting from a snapshot
`initial_cost_row` of row 0, subtract — for every basic column — the
(current) row holding that column's first 1 among the constraint rows,
scaled by the snapshot's entry at that column; rows other than row 0
are never written by the loop.  A basic column with no 1 among the
constraint rows would make `np.where(...)[0][0]` raise in python; it is
modelled as contributing nothing (no executed path reaches it). -/
def fix_missing_basis (T : Table) (basis : List Int) : Table :=
  let initial_cost_row := T.headD []
  let new_cost := basis.foldl
    (fun cost_row col =>
      let c := pyColIdx (width T) col
      match (T.drop 1).findIdx? (fun row => decide (row.getD c 0 = 1)) with
      | none => cost_row
      | some i =>
        List.zipWith (fun x y => x - y) cost_row
          ((T.getD (i + 1) []).map (fun v => v * initial_cost_row.getD c 0)))
    initial_cost_row
  T.set 0 new_cost

/-- lab04 `Solver._presolve_initial_tableaux`: Phase I objective, basic
tableau, then zero the cost row on the artificial basis. -/
def presolve_initial_tableaux (pm : Model) (arts : List (Nat × Nat)) : Table :=
  let T := basic_initial_tableaux (prepare_first_phase_objective pm arts)
  fix_missing_basis T (arts.map (fun p => Int.ofNat p.1))

/-- lab04 `Solver._artifical_variables_are_positive` (source spelling
kept): true iff the intersection of the extracted basis with the
artificial variable indices is nonempty — the value of the variable is
not consulted. -/
def artifical_variables_are_positive (T : Table) (arts : List (Nat × Nat)) : Bool :=
  (extract_basis T).any (fun b => arts.any (fun p => Int.ofNat p.1 == b))

/-- lab04 `Solver._remove_artificial_variables`:
`np.delete(table, artificial_indices, axis=1)`. -/
def remove_artificial_variables (T : Table) (arts : List (Nat × Nat)) : Table :=
  T.map (fun row =>
    (row.enum.filter (fun p => !(arts.any (fun q => q.1 == p.1)))).map Prod.snd)

/-- lab04 `Solver._restore_original_cost_row`: overwrite row 0 with the
cost row of the basic tableau of the (normalized) model. -/
def restore_original_cost_row (T : Table) (m : Model) : Table :=
  T.set 0 ((basic_initial_tableaux m).headD [])

/-- lab04 `Solver._fix_cost_row_to_the_basis` delegates to
`_fix_missing_basis`. -/
def fix_cost_row_to_the_basis (T : Table) (basis : List Int) : Table :=
  fix_missing_basis T basis

/-- lab04 `Solver._presolve`: build and optimise the Phase I tableau;
fail with `infeasible` when an artificial variable remains in the
extracted basis; otherwise drop the artificial columns, restore the
true cost row and re-zero it on the Phase I basis. -/
def presolve (fuel : Nat) (nm : Model) : Except SimplexError Table :=
  match optimize fuel (presolve_initial_tableaux
      (add_artificial_variables nm).1 (add_artificial_variables nm).2) with
  | .error e => .error e
  | .ok T1 =>
    if artifical_variables_are_positive T1 (add_artificial_variables nm).2 then
      .error .infeasible
    else
      .ok (fix_cost_row_to_the_basis
        (restore_original_cost_row
          (remove_artificial_variables T1 (add_artificial_variables nm).2) nm)
        (extract_basis T1))

/-- The first half of lab04 `Solver.solve`: normalize, then either run
the Phase I presolve or build the basic initial tableau directly —
this value is Phase II's starting tableau. -/
def initial_tableaux_or_presolve (fuel : Nat) (m : Model) : Except SimplexError Table :=
  if (normalize_model m).2.1.length < (normalize_model m).1.constraints.length then
    presolve fuel (normalize_model m).1
  else .ok (basic_initial_tableaux (normalize_model m).1)

/-- lab04 `Solver._translate_to_original_model`: keep one value per
variable of the caller's model and bind the result to that model. -/
def translate_to_original_model (assignment : List ℚ) (m : Model) : Solution :=
  ⟨m, m.variables.map (fun v => assignment.getD v.index 0)⟩

/-- lab04 `Solver.solve`: Phase II start (direct or via presolve),
Phase II optimisation, solution extraction, translation back to the
caller's model. -/
def lab04_solve (fuel : Nat) (m : Model) : Except SimplexError Solution :=
  match initial_tableaux_or_presolve fuel m with
  | .error e => .error e
  | .ok T =>
    match optimize fuel T with
    | .error e => .error e
    | .ok Tf => .ok (translate_to_original_model (extract_solution Tf) m)

/-! ## Derived observations used in the statements -/

/-- The candidate ratio of constraint row `r` for entering column
`col`, exactly as `choose_leaving_variable` computes it: right-hand
side of the row divided by its pivot-column entry, sent to `+inf` when
the entry is 0 or the quotient is negative. -/
def leaving_ratio (T : Table) (col r : Nat) : WithTop ℚ :=
  pyDivRatio ((T.getD r []).getLastD 0) ((T.getD r []).getD col 0)

/-- Column `c` of the table is a unit vector whose single 1 sits in row
`r`. -/
def isUnitColAt (T : Table) (c r : Nat) : Prop :=
  entry T r c = 1 ∧ ∀ i, i < T.length → i ≠ r → entry T i c = 0

instance (T : Table) (c r : Nat) : Decidable (isUnitColAt T c r) := by
  unfold isUnitColAt
  infer_instance

/-- The successive tableau states of the optimisation loop, starting
from `T`. -/
def loopState (T : Table) : Nat → Table
  | 0 => T
  | k + 1 => pivotStep (loopState T k)

/-- Python's `deepcopy` under the value semantics of the embedding: the
copy is the same value; what the copy buys the python code — and what
the embedding encodes by applying all subsequent steps to this value
while the caller's object is threaded through unchanged — is that the
copy shares no mutable state with the caller's object. -/
def deepcopy (m : Model) : Model := m

/-- lab04 `Solver.solve` with the caller's model object tracked as an
explicit store cell.  `_normalize_model` starts with
`model = deepcopy(original_model)` and every in-place mutation of the
solve body (objective/constraint inversion, `create_variable`,
constraint-expression updates, tableau writes) targets that copy or
arrays derived from it; the caller's object is only read afterwards
(`_translate_to_original_model`).  The second component is the caller's
object when the call returns. -/
def lab04_solve_with_caller (fuel : Nat) (caller : Model) :
    Except SimplexError Solution × Model :=
  (lab04_solve fuel (deepcopy caller), caller)

/-- lab03 `Solver.solve` with the caller's model object tracked: the
body normalizes `deepcopy(model)` and never writes to the caller's
object. -/
def lab03_solve_with_caller (fuel : Nat) (caller : Model) :
    Except SimplexError Solution × Model :=
  (lab03_solve fuel (deepcopy caller), caller)

/-! ## Concrete models -/

/-- Scenario 2 of §8: `maximize 5x1+8x2` subject to `x1+x2 ≤ 6`,
`5x1+9x2 ≤ 45` (the model of `integer_01_solvable.py`, taken as a
plain LP). -/
def exampleModel9 : Model :=
  ⟨[⟨0, "x1"⟩, ⟨1, "x2"⟩],
   [⟨⟨[⟨0, 1⟩, ⟨1, 1⟩]⟩, .le, 6⟩, ⟨⟨[⟨0, 5⟩, ⟨1, 9⟩]⟩, .le, 45⟩],
   ⟨⟨[⟨0, 5⟩, ⟨1, 8⟩]⟩, .max⟩⟩

/-- A feasible model (`x1 = 0` satisfies both constraints) whose Phase I
ends with the artificial variable of the equality constraint still in
the basis at value exactly 0: `maximize x1` subject to `x1 ≤ 0`,
`x1 = 0`. -/
def exampleModel1 : Model :=
  ⟨[⟨0, "x1"⟩],
   [⟨⟨[⟨0, 1⟩]⟩, .le, 0⟩, ⟨⟨[⟨0, 1⟩]⟩, .eq, 0⟩],
   ⟨⟨[⟨0, 1⟩]⟩, .max⟩⟩

/-- A model whose solve run reaches a tableau in which the column of
`x2` — a variable appearing only in the objective — is a unit vector
with its 1 in the cost row: `maximize x1 - x2` subject to `x3 ≤ 5`,
`x1 ≤ 3`. -/
def exampleModel7 : Model :=
  ⟨[⟨0, "x1"⟩, ⟨1, "x2"⟩, ⟨2, "x3"⟩],
   [⟨⟨[⟨2, 1⟩]⟩, .le, 5⟩, ⟨⟨[⟨0, 1⟩]⟩, .le, 3⟩],
   ⟨⟨[⟨0, 1⟩, ⟨1, -1⟩]⟩, .max⟩⟩

/-! ## Library lemmas on folded minima and first-minimum search -/

theorem foldl_min_eq_init_or_mem {α : Type} [LinearOrder α] :
    ∀ (l : List α) (a : α), l.foldl min a = a ∨ l.foldl min a ∈ l
  | [], _ => Or.inl rfl
  | x :: xs, a => by
    rcases foldl_min_eq_init_or_mem xs (min a x) with h | h
    · rcases min_choice a x with h' | h'
      · exact Or.inl (by rw [List.foldl_cons, h, h'])
      · exact Or.inr (by
          rw [List.foldl_cons, h, h']
          exact List.mem_cons_self x xs)
    · exact Or.inr (List.mem_cons_of_mem x h)

theorem foldl_min_le_init {α : Type} [LinearOrder α] :
    ∀ (l : List α) (a : α), l.foldl min a ≤ a
  | [], a => le_refl a
  | x :: xs, a =>
    le_trans (foldl_min_le_init xs (min a x)) (min_le_left a x)

theorem foldl_min_le_mem {α : Type} [LinearOrder α] :
    ∀ (l : List α) (a x : α), x ∈ l → l.foldl min a ≤ x := by
  intro l
  induction l with
  | nil => intro a x hx; cases hx
  | cons y ys ih =>
    intro a x hx
    rcases List.mem_cons.mp hx with rfl | hx
    · exact le_trans (foldl_min_le_init ys (min a x)) (min_le_right a x)
    · exact ih (min a y) x hx

/-- Characterisation of `pyMinIdx` on a nonempty list: it is in range,
it points at the minimum, and everything strictly before it is strictly
above the minimum (Python's `list.index(min(list))`). -/
theorem pyMinIdx_spec (l : List (WithTop ℚ)) (h : l ≠ []) :
    pyMinIdx l < l.length ∧
    l.getD (pyMinIdx l) ⊤ = l.foldl min ⊤ ∧
    (∀ j, j < l.length → l.foldl min ⊤ ≤ l.getD j ⊤) ∧
    (∀ j, j < pyMinIdx l → l.foldl min ⊤ < l.getD j ⊤) := by
  have hmem : l.foldl min ⊤ ∈ l := by
    rcases foldl_min_eq_init_or_mem l ⊤ with h1 | h1
    · cases l with
      | nil => exact absurd rfl h
      | cons x xs =>
        have hx : (x :: xs).foldl min ⊤ ≤ x :=
          foldl_min_le_mem _ ⊤ x (List.mem_cons_self x xs)
        rw [h1] at hx
        rw [h1, top_le_iff.mp hx]
        exact List.mem_cons_self ⊤ xs
    · exact h1
  have hlt : pyMinIdx l < l.length := by
    unfold pyMinIdx
    rw [List.findIdx_lt_length]
    exact ⟨l.foldl min ⊤, hmem, by simp⟩
  refine ⟨hlt, ?_, ?_, ?_⟩
  · have hget := @List.findIdx_getElem _
      (fun v => decide (v = l.foldl min ⊤)) l hlt
    have : l[pyMinIdx l] = l.foldl min ⊤ := by
      simpa using hget
    rw [List.getD_eq_getElem l ⊤ hlt]
    exact this
  · intro j hj
    rw [List.getD_eq_getElem l ⊤ hj]
    exact foldl_min_le_mem l ⊤ _ (List.getElem_mem hj)
  · intro j hj
    have hjl : j < l.length := lt_trans hj hlt
    have hne := @List.not_of_lt_findIdx _
      (fun v => decide (v = l.foldl min ⊤)) l j hj
    have hne' : l[j] ≠ l.foldl min ⊤ := by
      simpa using hne
    rw [List.getD_eq_getElem l ⊤ hjl]
    exact lt_of_le_of_ne (foldl_min_le_mem l ⊤ _ (List.getElem_mem hjl))
      (Ne.symm hne')

/-- The entries of the zero-excluded cost-factor list that
`choose_entering_variable` minimises. -/
theorem entering_map_getD (T : Table) (k : Nat)
    (hk : k < (cost_factors T).length) :
    ((cost_factors T).map
        (fun v : ℚ => if v = 0 then (⊤ : WithTop ℚ) else (v : WithTop ℚ))).getD k ⊤ =
      (if (cost_factors T)[k] = 0 then (⊤ : WithTop ℚ)
       else ((cost_factors T)[k] : WithTop ℚ)) := by
  have hk' : k < ((cost_factors T).map
      (fun v : ℚ => if v = 0 then (⊤ : WithTop ℚ) else (v : WithTop ℚ))).length := by
    rw [List.length_map]; exact hk
  rw [List.getD_eq_getElem _ ⊤ hk']
  exact List.getElem_map _

/-- **C5**: for every non-optimal tableau, `choose_entering_variable`
returns the index of the column whose cost-row factor is the most
negative, zero factors being excluded from the search (sent to `+inf`),
with ties broken by the first occurrence in column order. -/
theorem c5_entering_most_negative (T : Table) (h : is_optimal T = false) :
    choose_entering_variable T < (cost_factors T).length ∧
    (cost_factors T).getD (choose_entering_variable T) 0 < 0 ∧
    (∀ i, i < (cost_factors T).length →
      (cost_factors T).getD (choose_entering_variable T) 0 ≤
        (cost_factors T).getD i 0) ∧
    (∀ i, i < choose_entering_variable T →
      (cost_factors T).getD (choose_entering_variable T) 0 <
        (cost_factors T).getD i 0) := by
  classical
  obtain ⟨x, hxmem, hxneg⟩ : ∃ x ∈ cost_factors T, ¬ (0 ≤ x) := by
    have h' := h
    unfold is_optimal at h'
    rcases List.all_eq_false.mp h' with ⟨x, hx1, hx2⟩
    exact ⟨x, hx1, by simpa using hx2⟩
  have hxlt : x < 0 := lt_of_not_le hxneg
  obtain ⟨i0, hi0, hxi0⟩ := List.mem_iff_getElem.mp hxmem
  set f : ℚ → WithTop ℚ :=
    fun v : ℚ => if v = 0 then (⊤ : WithTop ℚ) else (v : WithTop ℚ) with hf
  set l : List (WithTop ℚ) := (cost_factors T).map f with hl
  have hlen : l.length = (cost_factors T).length := List.length_map _ _
  have hne : l ≠ [] := by
    apply List.ne_nil_of_length_pos
    rw [hlen]
    exact Nat.lt_of_le_of_lt (Nat.zero_le i0) hi0
  obtain ⟨h1, h2, h3, h4⟩ := pyMinIdx_spec l hne
  have hid : choose_entering_variable T = pyMinIdx l := rfl
  have hj : pyMinIdx l < (cost_factors T).length := by rw [← hlen]; exact h1
  have hgetj : l.getD (pyMinIdx l) ⊤ =
      f ((cost_factors T)[pyMinIdx l]) := by
    rw [List.getD_eq_getElem l ⊤ h1]
    exact List.getElem_map _
  have hgeti0 : l.getD i0 ⊤ = f ((cost_factors T)[i0]) := by
    have hi0' : i0 < l.length := by rw [hlen]; exact hi0
    rw [List.getD_eq_getElem l ⊤ hi0']
    exact List.getElem_map _
  have hfi0 : f ((cost_factors T)[i0]) = ((x : ℚ) : WithTop ℚ) := by
    rw [hxi0, hf]
    simp [ne_of_lt hxlt]
  have hmle : l.foldl min ⊤ ≤ ((x : ℚ) : WithTop ℚ) := by
    have := h3 i0 (by rw [hlen]; exact hi0)
    rw [hgeti0, hfi0] at this
    exact this
  have hmtop : l.foldl min ⊤ < ⊤ :=
    lt_of_le_of_lt hmle (WithTop.coe_lt_top x)
  have hjne : (cost_factors T)[pyMinIdx l] ≠ 0 := by
    intro h0
    rw [h2, h0] at hgetj
    simp [hf] at hgetj
    exact absurd hgetj (ne_of_lt hmtop)
  have hjval : l.foldl min ⊤ =
      (((cost_factors T)[pyMinIdx l] : ℚ) : WithTop ℚ) := by
    rw [← h2, hgetj, hf]
    simp [hjne]
  have hjneg : (cost_factors T)[pyMinIdx l] < 0 := by
    have : (((cost_factors T)[pyMinIdx l] : ℚ) : WithTop ℚ) ≤
        ((x : ℚ) : WithTop ℚ) := by rw [← hjval]; exact hmle
    exact lt_of_le_of_lt (WithTop.coe_le_coe.mp this) hxlt
  rw [hid]
  refine ⟨hj, ?_, ?_, ?_⟩
  · rw [List.getD_eq_getElem _ 0 hj]
    exact hjneg
  · intro i hi
    rw [List.getD_eq_getElem _ 0 hj, List.getD_eq_getElem _ 0 hi]
    by_cases hz : (cost_factors T)[i] = 0
    · rw [hz]; exact le_of_lt hjneg
    · have := h3 i (by rw [hlen]; exact hi)
      have hgeti : l.getD i ⊤ = f ((cost_factors T)[i]) := by
        have hi' : i < l.length := by rw [hlen]; exact hi
        rw [List.getD_eq_getElem l ⊤ hi']
        exact List.getElem_map _
      rw [hgeti, hf] at this
      simp only [hz, if_false] at this
      rw [hjval] at this
      exact WithTop.coe_le_coe.mp this
  · intro i hi
    have hi' : i < (cost_factors T).length := lt_trans hi hj
    rw [List.getD_eq_getElem _ 0 hj, List.getD_eq_getElem _ 0 hi']
    by_cases hz : (cost_factors T)[i] = 0
    · rw [hz]; exact hjneg
    · have := h4 i hi
      have hgeti : l.getD i ⊤ = f ((cost_factors T)[i]) := by
        have hi'' : i < l.length := by rw [hlen]; exact hi'
        rw [List.getD_eq_getElem l ⊤ hi'']
        exact List.getElem_map _
      rw [hgeti, hf] at this
      simp only [hz, if_false] at this
      rw [hjval] at this
      exact WithTop.coe_lt_coe.mp this

/-- Concrete non-optimal tableau for the C5 witness: ties between the
two `-2` factors are broken towards column 1, the zero factor is
ignored. -/
def witnessTable5 : Table := [[1, -2, 0, -2, 0], [1, 1, 1, 1, 4]]

/-- Witness for C5: the hypotheses and the conclusion of
`c5_entering_most_negative` hold at `witnessTable5`. -/
theorem c5_witness :
    is_optimal witnessTable5 = false ∧
    (choose_entering_variable witnessTable5 < (cost_factors witnessTable5).length ∧
    (cost_factors witnessTable5).getD (choose_entering_variable witnessTable5) 0 < 0 ∧
    (∀ i, i < (cost_factors witnessTable5).length →
      (cost_factors witnessTable5).getD (choose_entering_variable witnessTable5) 0 ≤
        (cost_factors witnessTable5).getD i 0) ∧
    (∀ i, i < choose_entering_variable witnessTable5 →
      (cost_factors witnessTable5).getD (choose_entering_variable witnessTable5) 0 <
        (cost_factors witnessTable5).getD i 0)) :=
  ⟨by with_unfolding_all decide,
   c5_entering_most_negative witnessTable5 (by with_unfolding_all decide)⟩

/-- The ratio list minimised by `choose_leaving_variable`, entry by
entry: position `k` holds the ratio of constraint row `k + 1`. -/
theorem leaving_ratio_list (T : Table) (col : Nat) (k : Nat)
    (hk : k < T.length - 1) :
    (List.zipWith pyDivRatio
        ((T.drop 1).map (fun row => row.getLastD 0))
        ((T.drop 1).map (fun row => row.getD col 0))).getD k ⊤ =
      leaving_ratio T col (k + 1) := by
  have hd : (T.drop 1).length = T.length - 1 := List.length_drop 1 T
  have hk1 : k < (T.drop 1).length := by rw [hd]; exact hk
  have hka : k < ((T.drop 1).map (fun row => row.getLastD 0)).length := by
    rw [List.length_map]; exact hk1
  have hkz : k < (List.zipWith pyDivRatio
      ((T.drop 1).map (fun row => row.getLastD 0))
      ((T.drop 1).map (fun row => row.getD col 0))).length := by
    rw [List.length_zipWith, List.length_map, List.length_map]
    simpa using hk1
  rw [List.getD_eq_getElem _ ⊤ hkz, List.getElem_zipWith]
  rw [List.getElem_map, List.getElem_map]
  have hkT : 1 + k < T.length := by omega
  have hdrop : (T.drop 1)[k] = T[1 + k] := List.getElem_drop T
  have hgd : T.getD (k + 1) [] = T[1 + k] := by
    rw [List.getD_eq_getElem T [] (by omega : k + 1 < T.length)]
    congr 1
    omega
  unfold leaving_ratio
  rw [hdrop, hgd]

/-- **C2** (amended): `choose_leaving_variable(col)` returns the first
constraint row (cost row excluded) minimising the ratio
`table[r, rhs] / table[r, col]` where a row is sent to `+inf` exactly
when its pivot-column entry is 0 or its ratio is negative; a row whose
pivot-column entry is negative remains a candidate whenever its ratio
is nonnegative. -/
theorem c2_leaving_first_min_ratio (T : Table) (col : Nat)
    (h : 1 < T.length) :
    1 ≤ choose_leaving_variable T col ∧
    choose_leaving_variable T col < T.length ∧
    (∀ r, 1 ≤ r → r < T.length →
      leaving_ratio T col (choose_leaving_variable T col) ≤
        leaving_ratio T col r) ∧
    (∀ r, 1 ≤ r → r < choose_leaving_variable T col →
      leaving_ratio T col (choose_leaving_variable T col) <
        leaving_ratio T col r) := by
  set l : List (WithTop ℚ) := List.zipWith pyDivRatio
      ((T.drop 1).map (fun row => row.getLastD 0))
      ((T.drop 1).map (fun row => row.getD col 0)) with hldef
  have hlen : l.length = T.length - 1 := by
    rw [hldef, List.length_zipWith, List.length_map, List.length_map,
      List.length_drop]
    simp
  have hne : l ≠ [] := by
    apply List.ne_nil_of_length_pos
    omega
  obtain ⟨h1, h2, h3, h4⟩ := pyMinIdx_spec l hne
  have hid : choose_leaving_variable T col = pyMinIdx l + 1 := rfl
  have hRratio : leaving_ratio T col (pyMinIdx l + 1) = l.foldl min ⊤ := by
    rw [← leaving_ratio_list T col (pyMinIdx l) (by omega)]
    exact h2
  rw [hid]
  refine ⟨by omega, by omega, ?_, ?_⟩
  · intro r hr1 hr2
    have hratio : leaving_ratio T col r = l.getD (r - 1) ⊤ := by
      rw [leaving_ratio_list T col (r - 1) (by omega)]
      congr 1
      omega
    rw [hRratio, hratio]
    exact h3 (r - 1) (by omega)
  · intro r hr1 hr2
    have hratio : leaving_ratio T col r = l.getD (r - 1) ⊤ := by
      have hrT : r - 1 < T.length - 1 := by omega
      rw [leaving_ratio_list T col (r - 1) hrT]
      congr 1
      omega
    rw [hRratio, hratio]
    exact h4 (r - 1) (by omega)

/-- A tableau refuting C2 as stated: in column 0, constraint row 1 has
pivot-column entry `-1` (non-positive) and right-hand side `0`, so its
IEEE ratio `0 / -1 = -0.0` passes the `>= 0` filter with value 0 and
wins the minimum against row 2, the only row with a positive
pivot-column entry. -/
def counterTable2 : Table := [[-1, 0], [-1, 0], [1, 2]]

/-- Counterexample to **C2** as stated: `choose_leaving_variable`
returns row 1 whose pivot-column entry is not positive, although
row 2 with a positive entry (ratio 2) is available — rows with
non-positive pivot-column entries are not excluded. -/
theorem c2_counterexample :
    choose_leaving_variable counterTable2 0 = 1 ∧
    entry counterTable2 1 0 ≤ 0 ∧
    0 < entry counterTable2 2 0 ∧
    leaving_ratio counterTable2 0 2 = ((2 : ℚ) : WithTop ℚ) := by
  with_unfolding_all decide

/-- Concrete table for the C2 witness. -/
def witnessTable2 : Table := [[-1, 0, 0], [2, 1, 4], [1, 1, 3]]

/-- Witness for C2 (amended): the hypothesis and conclusion of
`c2_leaving_first_min_ratio` hold at `witnessTable2`, column 0. -/
theorem c2_witness :
    1 < witnessTable2.length ∧
    (1 ≤ choose_leaving_variable witnessTable2 0 ∧
    choose_leaving_variable witnessTable2 0 < witnessTable2.length ∧
    (∀ r, 1 ≤ r → r < witnessTable2.length →
      leaving_ratio witnessTable2 0 (choose_leaving_variable witnessTable2 0) ≤
        leaving_ratio witnessTable2 0 r) ∧
    (∀ r, 1 ≤ r → r < choose_leaving_variable witnessTable2 0 →
      leaving_ratio witnessTable2 0 (choose_leaving_variable witnessTable2 0) <
        leaving_ratio witnessTable2 0 r)) :=
  ⟨by with_unfolding_all decide,
   c2_leaving_first_min_ratio witnessTable2 0 (by with_unfolding_all decide)⟩

/-! ## Entry-level description of `pivot` -/

theorem entry_eq_getElem (T : Table) (r c : Nat) (hr : r < T.length)
    (hc : c < (T[r]).length) : entry T r c = (T[r])[c] := by
  unfold entry
  rw [List.getD_eq_getElem T [] hr, List.getD_eq_getElem _ 0 hc]

theorem entry_mapIdx (X : Table) (f : Nat → Row → Row) (r c : Nat)
    (hr : r < X.length) :
    entry (X.mapIdx f) r c = (f r (X[r])).getD c 0 := by
  unfold entry
  have hr' : r < (X.mapIdx f).length := by rw [List.length_mapIdx]; exact hr
  rw [List.getD_eq_getElem _ [] hr', List.getElem_mapIdx]

theorem getD_mapIdx_row (rowL : Row) (g : Nat → ℚ → ℚ) (c : Nat)
    (hc : c < rowL.length) :
    (rowL.mapIdx g).getD c 0 = g c (rowL[c]) := by
  have hc' : c < (rowL.mapIdx g).length := by rw [List.length_mapIdx]; exact hc
  rw [List.getD_eq_getElem _ 0 hc', List.getElem_mapIdx]

theorem entry_pivot_divide_row (T : Table) (row col r c : Nat)
    (hr : r < T.length) (hc : c < (T[r]).length) :
    entry (pivot_divide_row T row col) r c =
      if r = row then entry T r c / entry T row col else entry T r c := by
  unfold pivot_divide_row
  rw [entry_mapIdx _ _ r c hr]
  by_cases h : r = row
  · rw [if_pos h, if_pos h]
    have hc' : c < ((T[r]).map (· / entry T row col)).length := by
      rw [List.length_map]; exact hc
    rw [List.getD_eq_getElem _ 0 hc', List.getElem_map,
      entry_eq_getElem T r c hr hc]
  · rw [if_neg h, if_neg h, List.getD_eq_getElem _ 0 hc,
      entry_eq_getElem T r c hr hc]

theorem entry_pivot_set_unit_column (row col : Nat) (X : Table) (r c : Nat)
    (hr : r < X.length) (hc : c < (X[r]).length) :
    entry (pivot_set_unit_column row col X) r c =
      if c = col then (if r = row then 1 else 0) else entry X r c := by
  unfold pivot_set_unit_column
  rw [entry_mapIdx _ _ r c hr, getD_mapIdx_row _ _ c hc,
    entry_eq_getElem X r c hr hc]

theorem entry_pivot_eliminate (T : Table) (row col : Nat) (X : Table)
    (r c : Nat) (hr : r < X.length) (hc : c < (X[r]).length) :
    entry (pivot_eliminate T row col X) r c =
      if r = row ∨ c = col then entry X r c
      else entry T r c - entry T r col * (entry T row c / entry T row col) := by
  unfold pivot_eliminate
  rw [entry_mapIdx _ _ r c hr, getD_mapIdx_row _ _ c hc,
    entry_eq_getElem X r c hr hc]

/-- **C4**: `pivot(row, col)` is Gauss-Jordan elimination: the pivot
position becomes 1 and the rest of column `col` becomes 0; the pivot
row is divided by the pre-pivot pivot element; every other entry
becomes `old[r,c] − old[r,col] * (old[row,c] / old[row,col])`, all old
values read from the pre-pivot snapshot. -/
theorem c4_pivot_gauss_jordan (T : Table) (row col : Nat) (hwf : WF T)
    (_hrow : row < T.length) (_hcol : col < width T)
    (_hp : entry T row col ≠ 0) :
    ∀ r, r < T.length → ∀ c, c < width T →
      entry (pivot T row col) r c =
        if c = col then (if r = row then 1 else 0)
        else if r = row then entry T row c / entry T row col
        else entry T r c - entry T r col * (entry T row c / entry T row col) := by
  intro r hr c hc
  have hrl : ∀ (i : Nat) (hi : i < T.length), (T[i]).length = width T :=
    fun i hi => hwf.2 _ (List.getElem_mem hi)
  have hA : r < (pivot_divide_row T row col).length := by
    unfold pivot_divide_row
    rw [List.length_mapIdx]
    exact hr
  have hAget : (pivot_divide_row T row col)[r] =
      if r = row then (T[r]).map (· / entry T row col) else T[r] := by
    unfold pivot_divide_row
    exact List.getElem_mapIdx
  have hAlen : ((pivot_divide_row T row col)[r]).length = width T := by
    rw [hAget]
    by_cases h : r = row
    · rw [if_pos h, List.length_map, hrl r hr]
    · rw [if_neg h, hrl r hr]
  have hB : r <
      (pivot_set_unit_column row col (pivot_divide_row T row col)).length := by
    unfold pivot_set_unit_column
    rw [List.length_mapIdx]
    exact hA
  have hBget :
      (pivot_set_unit_column row col (pivot_divide_row T row col))[r] =
      ((pivot_divide_row T row col)[r]).mapIdx
        (fun c v => if c = col then (if r = row then 1 else 0) else v) := by
    unfold pivot_set_unit_column
    exact List.getElem_mapIdx
  have hBlen :
      ((pivot_set_unit_column row col (pivot_divide_row T row col))[r]).length
        = width T := by
    rw [hBget, List.length_mapIdx, hAlen]
  unfold pivot
  rw [entry_pivot_eliminate T row col _ r c hB (by rw [hBlen]; exact hc)]
  rw [entry_pivot_set_unit_column row col _ r c hA (by rw [hAlen]; exact hc)]
  rw [entry_pivot_divide_row T row col r c hr (by rw [hrl r hr]; exact hc)]
  by_cases h1 : c = col
  · by_cases h2 : r = row <;> simp [h1, h2]
  · by_cases h2 : r = row
    · simp [h1, h2]
    · simp [h1, h2]

/-- Concrete table for the C4 witness. -/
def witnessTable4 : Table := [[1, 2, 3], [4, 5, 6]]

/-- Witness for C4: hypotheses and conclusion of
`c4_pivot_gauss_jordan` hold at `witnessTable4` pivoting on row 1,
column 0. -/
theorem c4_witness :
    (WF witnessTable4 ∧ 1 < witnessTable4.length ∧ 0 < width witnessTable4 ∧
      entry witnessTable4 1 0 ≠ 0) ∧
    (∀ r, r < witnessTable4.length → ∀ c, c < width witnessTable4 →
      entry (pivot witnessTable4 1 0) r c =
        if c = 0 then (if r = 1 then 1 else 0)
        else if r = 1 then entry witnessTable4 1 c / entry witnessTable4 1 0
        else entry witnessTable4 r c -
          entry witnessTable4 r 0 *
            (entry witnessTable4 1 c / entry witnessTable4 1 0)) :=
  ⟨⟨by with_unfolding_all decide, by with_unfolding_all decide,
    by with_unfolding_all decide, by with_unfolding_all decide⟩,
   c4_pivot_gauss_jordan witnessTable4 1 0
     (by with_unfolding_all decide) (by with_unfolding_all decide)
     (by with_unfolding_all decide) (by with_unfolding_all decide)⟩

/-! ## The unbounded failure of the optimisation loop -/

/-- `loopState` commutes with one loop pass. -/
theorem loopState_succ_shift (T : Table) (k : Nat) :
    loopState (pivotStep T) k = loopState T (k + 1) := by
  induction k with
  | zero => rfl
  | succ k ih =>
    show pivotStep (loopState (pivotStep T) k) = pivotStep (loopState T (k + 1))
    rw [ih]

/-- At step `j` the loop neither stops as optimal nor fails as
unbounded. -/
def loop_continues (T : Table) (j : Nat) : Prop :=
  is_optimal (loopState T j) = false ∧
  is_unbounded (loopState T j) (choose_entering_variable (loopState T j)) = false

/-- At step `k` the loop is not optimal and the chosen entering column
is unbounded. -/
def loop_hits_unbounded (T : Table) (k : Nat) : Prop :=
  is_optimal (loopState T k) = false ∧
  is_unbounded (loopState T k) (choose_entering_variable (loopState T k)) = true

/-- The optimisation loop never reports infeasibility: that error
belongs to the presolve exclusively. -/
theorem optimize_ne_infeasible (fuel : Nat) : ∀ T : Table,
    optimize fuel T ≠ .error .infeasible := by
  induction fuel with
  | zero =>
    intro T h
    exact SimplexError.noConfusion (Except.error.inj h)
  | succ fuel ih =>
    intro T h
    unfold optimize at h
    by_cases h1 : is_optimal T = true
    · rw [if_pos h1] at h
      exact Except.noConfusion h
    · rw [if_neg h1] at h
      by_cases h2 : is_unbounded T (choose_entering_variable T) = true
      · rw [if_pos h2] at h
        exact SimplexError.noConfusion (Except.error.inj h)
      · rw [if_neg h2] at h
        exact ih _ h

/-- **C6**: `is_unbounded(col)` holds exactly when every entry of
column `col`, cost row included, is `≤ 0`; the optimisation loop
returns the `Unbounded` failure exactly when it reaches — without
first stopping as optimal or failing — a state whose chosen entering
column is unbounded; and a `solve` run that fails `Unbounded` returns
no solution. -/
theorem c6_unbounded_characterisation :
    (∀ (T : Table) (col : Nat),
      is_unbounded T col = true ↔ ∀ r, r < T.length → entry T r col ≤ 0) ∧
    (∀ (fuel : Nat) (T : Table),
      optimize fuel T = .error .unbounded ↔
        ∃ k, k < fuel ∧ (∀ j, j < k → loop_continues T j) ∧
          loop_hits_unbounded T k) ∧
    (∀ (fuel : Nat) (m : Model),
      lab04_solve fuel m = .error .unbounded ↔
        initial_tableaux_or_presolve fuel m = .error .unbounded ∨
        (∃ t, initial_tableaux_or_presolve fuel m = .ok t ∧
          optimize fuel t = .error .unbounded)) ∧
    (∀ (fuel : Nat) (m : Model) (s : Solution),
      lab04_solve fuel m = .error .unbounded → lab04_solve fuel m ≠ .ok s) := by
  refine ⟨?_, ?_, ?_, ?_⟩
  · intro T col
    constructor
    · intro h r hr
      have hall := List.all_eq_true.mp h
      have hmem := hall ((T[r]).getD col 0)
        (List.mem_map.mpr ⟨T[r], List.getElem_mem hr, rfl⟩)
      unfold entry
      rw [List.getD_eq_getElem T [] hr]
      simpa using hmem
    · intro h
      apply List.all_eq_true.mpr
      intro x hx
      obtain ⟨rowL, hrow, rfl⟩ := List.mem_map.mp hx
      obtain ⟨r, hr, rfl⟩ := List.mem_iff_getElem.mp hrow
      have hres := h r hr
      unfold entry at hres
      rw [List.getD_eq_getElem T [] hr] at hres
      simpa using hres
  · intro fuel
    induction fuel with
    | zero =>
      intro T
      constructor
      · intro h
        exact absurd (Except.error.inj h) (fun hh => SimplexError.noConfusion hh)
      · rintro ⟨k, hk, -, -⟩
        omega
    | succ fuel ih =>
      intro T
      unfold optimize
      by_cases h1 : is_optimal T = true
      · rw [if_pos h1]
        constructor
        · intro h
          exact Except.noConfusion h
        · rintro ⟨k, hk, hcont, hhit⟩
          cases k with
          | zero =>
            have h0 : is_optimal T = false := hhit.1
            rw [h1] at h0
            exact Bool.noConfusion h0
          | succ k =>
            have h0 : is_optimal T = false := (hcont 0 (Nat.succ_pos k)).1
            rw [h1] at h0
            exact Bool.noConfusion h0
      · rw [if_neg h1]
        have h1' : is_optimal T = false := Bool.not_eq_true _ ▸ eq_false_of_ne_true h1
        by_cases h2 : is_unbounded T (choose_entering_variable T) = true
        · rw [if_pos h2]
          constructor
          · intro _
            exact ⟨0, Nat.succ_pos fuel,
              fun j hj => absurd hj (Nat.not_lt_zero j), h1', h2⟩
          · intro _
            rfl
        · rw [if_neg h2]
          have h2' : is_unbounded T (choose_entering_variable T) = false :=
            eq_false_of_ne_true h2
          rw [ih (pivotStep T)]
          constructor
          · rintro ⟨k, hk, hcont, hhit⟩
            refine ⟨k + 1, by omega, ?_, ?_⟩
            · intro j hj
              cases j with
              | zero => exact ⟨h1', h2'⟩
              | succ j =>
                have hc := hcont j (by omega)
                unfold loop_continues at hc ⊢
                rw [← loopState_succ_shift]
                exact hc
            · unfold loop_hits_unbounded at hhit ⊢
              rw [← loopState_succ_shift]
              exact hhit
          · rintro ⟨k, hk, hcont, hhit⟩
            cases k with
            | zero =>
              have := hhit.2
              rw [show loopState T 0 = T from rfl] at this
              rw [this] at h2'
              exact Bool.noConfusion h2'
            | succ k =>
              refine ⟨k, by omega, ?_, ?_⟩
              · intro j hj
                have hc := hcont (j + 1) (by omega)
                unfold loop_continues at hc ⊢
                rw [loopState_succ_shift]
                exact hc
              · unfold loop_hits_unbounded at hhit ⊢
                rw [loopState_succ_shift]
                exact hhit
  · intro fuel m
    cases hinit : initial_tableaux_or_presolve fuel m with
    | error e =>
      simp only [lab04_solve, hinit]
      constructor
      · intro h
        have he : e = SimplexError.unbounded := Except.error.inj h
        exact Or.inl (by rw [he])
      · rintro (h | ⟨t, ht, -⟩)
        · have he : e = SimplexError.unbounded := Except.error.inj h
          rw [he]
        · exact Except.noConfusion ht
    | ok t =>
      simp only [lab04_solve, hinit]
      cases hopt : optimize fuel t with
      | error e =>
        simp only [hopt]
        constructor
        · intro h
          have he : e = SimplexError.unbounded := Except.error.inj h
          exact Or.inr ⟨t, rfl, by rw [hopt, he]⟩
        · rintro (h | ⟨t', ht', h2⟩)
          · exact Except.noConfusion h
          · cases Except.ok.inj ht'
            rw [hopt] at h2
            have he : e = SimplexError.unbounded := Except.error.inj h2
            rw [he]
      | ok tf =>
        simp only [hopt]
        constructor
        · intro h
          exact Except.noConfusion h
        · rintro (h | ⟨t', ht', h2⟩)
          · exact Except.noConfusion h
          · cases Except.ok.inj ht'
            rw [hopt] at h2
            exact Except.noConfusion h2
  · intro fuel m s h hcon
    rw [h] at hcon
    exact Except.noConfusion hcon

/-! ## The Phase I decision (C8) -/

theorem create_variable_constraints (m : Model) (vname : String) :
    (m.create_variable vname).1.constraints = m.constraints := rfl

theorem getD_set_ne {α : Type} (l : List α) (k i : Nat) (a d : α)
    (h : k ≠ i) : (l.set k a).getD i d = l.getD i d := by
  rw [List.getD_eq_getElem?_getD, List.getElem?_set, if_neg h,
    List.getD_eq_getElem?_getD]

theorem getD_set_self {α : Type} (l : List α) (k : Nat) (a d : α)
    (h : k < l.length) : (l.set k a).getD k d = a := by
  rw [List.getD_eq_getElem?_getD, List.getElem?_set, if_pos rfl, if_pos h]
  rfl

theorem getD_length_le {α : Type} (l : List α) (i : Nat) (d : α)
    (h : l.length ≤ i) : l.getD i d = d := by
  rw [List.getD_eq_getElem?_getD, List.getElem?_eq_none h]
  rfl

/-- Invariant of the `_add_slack_variables` fold: the constraint count
and every constraint's relation are unchanged, and the number of
recorded slack variables is the number of `≤` constraints processed so
far. -/
theorem add_slack_fold (m : Model) : ∀ k : Nat,
    ((List.range k).foldl add_slack_step (m, [])).1.constraints.length
        = m.constraints.length ∧
    (∀ i, (((List.range k).foldl add_slack_step (m, [])).1.constraints.getD
        i Constraint.dflt).type = (m.constraints.getD i Constraint.dflt).type) ∧
    ((List.range k).foldl add_slack_step (m, [])).2.length =
      (m.constraints.take k).countP
        (fun c => decide (c.type = ConstraintType.le)) := by
  intro k
  induction k with
  | zero => exact ⟨rfl, fun _ => rfl, by simp⟩
  | succ k ih =>
    obtain ⟨ih1, ih2, ih3⟩ := ih
    rw [List.range_succ, List.foldl_append, List.foldl_cons, List.foldl_nil]
    set st := (List.range k).foldl add_slack_step (m, []) with hst
    by_cases hk : k < m.constraints.length
    · have htake : m.constraints.take (k + 1) =
          m.constraints.take k ++ [m.constraints[k]] := by
        rw [List.take_succ, List.getElem?_eq_getElem hk]
        rfl
      have hgetk : m.constraints.getD k Constraint.dflt =
          m.constraints[k] := List.getD_eq_getElem _ _ hk
      by_cases hle :
          (m.constraints.getD k Constraint.dflt).type = ConstraintType.le
      · have hcond :
            (st.1.constraints.getD k Constraint.dflt).type = ConstraintType.le := by
          rw [ih2 k]; exact hle
        simp only [add_slack_step, if_pos hcond, create_variable_constraints]
        refine ⟨?_, ?_, ?_⟩
        · rw [List.length_set]; exact ih1
        · intro i
          by_cases hki : k = i
          · subst hki
            rw [getD_set_self _ _ _ _ (by rw [ih1]; exact hk)]
            exact ih2 k
          · rw [getD_set_ne _ _ _ _ _ hki]
            exact ih2 i
        · rw [List.length_append, ih3, htake, List.countP_append]
          have hk' : (m.constraints[k]).type = ConstraintType.le := by
            rw [← hgetk]; exact hle
          simp [List.countP_cons, hk']
      · have hcond :
            ¬ (st.1.constraints.getD k Constraint.dflt).type = ConstraintType.le := by
          rw [ih2 k]; exact hle
        simp only [add_slack_step, if_neg hcond]
        refine ⟨ih1, ih2, ?_⟩
        rw [ih3, htake, List.countP_append]
        have hk' : ¬ (m.constraints[k]).type = ConstraintType.le := by
          rw [← hgetk]; exact hle
        simp [List.countP_cons, hk']
    · have hdflt : st.1.constraints.getD k Constraint.dflt = Constraint.dflt := by
        apply getD_length_le
        rw [ih1]; omega
      have hcond :
          ¬ (st.1.constraints.getD k Constraint.dflt).type = ConstraintType.le := by
        rw [hdflt]
        intro h
        exact ConstraintType.noConfusion h
      simp only [add_slack_step, if_neg hcond]
      have htake : m.constraints.take (k + 1) = m.constraints.take k := by
        rw [List.take_of_length_le (by omega), List.take_of_length_le (by omega)]
      exact ⟨ih1, ih2, by rw [ih3, htake]⟩

/-- Invariant of the `_add_surplus_variables` fold: constraint count and
relations unchanged. -/
theorem add_surplus_fold (m : Model) : ∀ k : Nat,
    ((List.range k).foldl add_surplus_step (m, [])).1.constraints.length
        = m.constraints.length ∧
    (∀ i, (((List.range k).foldl add_surplus_step (m, [])).1.constraints.getD
        i Constraint.dflt).type = (m.constraints.getD i Constraint.dflt).type) := by
  intro k
  induction k with
  | zero => exact ⟨rfl, fun _ => rfl⟩
  | succ k ih =>
    obtain ⟨ih1, ih2⟩ := ih
    rw [List.range_succ, List.foldl_append, List.foldl_cons, List.foldl_nil]
    set st := (List.range k).foldl add_surplus_step (m, []) with hst
    by_cases hge :
        (st.1.constraints.getD k Constraint.dflt).type = ConstraintType.ge
    · have hklt : k < st.1.constraints.length := by
        by_contra hnk
        have hd : st.1.constraints.getD k Constraint.dflt = Constraint.dflt :=
          getD_length_le _ _ _ (by omega)
        rw [hd] at hge
        exact ConstraintType.noConfusion hge
      simp only [add_surplus_step, if_pos hge, create_variable_constraints]
      refine ⟨?_, ?_⟩
      · rw [List.length_set]; exact ih1
      · intro i
        by_cases hki : k = i
        · subst hki
          rw [getD_set_self _ _ _ _ hklt]
          exact ih2 k
        · rw [getD_set_ne _ _ _ _ _ hki]
          exact ih2 i
    · simp only [add_surplus_step, if_neg hge]
      exact ⟨ih1, ih2⟩

theorem countP_lt_iff_exists_ge_eq (l : List Constraint) :
    l.countP (fun c => decide (c.type = ConstraintType.le)) < l.length ↔
      ∃ c ∈ l, c.type = ConstraintType.ge ∨ c.type = ConstraintType.eq := by
  constructor
  · intro h
    by_contra hno
    push_neg at hno
    have hall : ∀ c ∈ l,
        (fun c : Constraint => decide (c.type = ConstraintType.le)) c = true := by
      intro c hc
      have hne := hno c hc
      cases hty : c.type with
      | le => simp [hty]
      | ge => exact absurd hty hne.1
      | eq => exact absurd hty hne.2
    rw [List.countP_eq_length.mpr hall] at h
    exact lt_irrefl _ h
  · rintro ⟨c, hc, hty⟩
    by_contra h
    push_neg at h
    have heq : l.countP (fun c => decide (c.type = ConstraintType.le)) =
        l.length := le_antisymm (List.countP_le_length _) h
    have := List.countP_eq_length.mp heq c hc
    rcases hty with hty | hty <;> rw [hty] at this <;> simpa using this

theorem exists_ge_eq_transfer (l1 l2 : List Constraint)
    (hlen : l1.length = l2.length)
    (hty : ∀ i, (l1.getD i Constraint.dflt).type =
      (l2.getD i Constraint.dflt).type) :
    (∃ c ∈ l1, c.type = ConstraintType.ge ∨ c.type = ConstraintType.eq) ↔
      ∃ c ∈ l2, c.type = ConstraintType.ge ∨ c.type = ConstraintType.eq := by
  constructor
  · rintro ⟨c, hc, hP⟩
    obtain ⟨i, hi, rfl⟩ := List.mem_iff_getElem.mp hc
    have hi2 : i < l2.length := by omega
    refine ⟨l2[i], List.getElem_mem hi2, ?_⟩
    have := hty i
    rw [List.getD_eq_getElem _ _ hi, List.getD_eq_getElem _ _ hi2] at this
    rw [← this]
    exact hP
  · rintro ⟨c, hc, hP⟩
    obtain ⟨i, hi, rfl⟩ := List.mem_iff_getElem.mp hc
    have hi1 : i < l1.length := by omega
    refine ⟨l1[i], List.getElem_mem hi1, ?_⟩
    have := hty i
    rw [List.getD_eq_getElem _ _ hi1, List.getD_eq_getElem _ _ hi] at this
    rw [this]
    exact hP

/-- **C8**: the Phase I presolve runs iff the normalized model has a
`≥` or `=` constraint; with only `≤` constraints the initial tableau is
built directly (natural slack basis) as Phase II's starting point, and
otherwise Phase II starts from the presolve result. -/
theorem c8_presolve_iff_ge_or_eq (fuel : Nat) (m : Model) :
    (presolve_needed m = true ↔
      ∃ c ∈ (normalize_model m).1.constraints,
        c.type = ConstraintType.ge ∨ c.type = ConstraintType.eq) ∧
    (presolve_needed m = false →
      initial_tableaux_or_presolve fuel m =
        .ok (basic_initial_tableaux (normalize_model m).1)) ∧
    (presolve_needed m = true →
      initial_tableaux_or_presolve fuel m =
        presolve fuel (normalize_model m).1) := by
  set m2 := change_constraints_bounds_to_nonnegative (change_objective_to_max m)
    with hm2
  have hslack := add_slack_fold m2 m2.constraints.length
  have hsurp := add_surplus_fold (add_slack_variables m2).1
    (add_slack_variables m2).1.constraints.length
  have hnm1 : (normalize_model m).1 =
      (add_surplus_variables (add_slack_variables m2).1).1 := rfl
  have hnm2 : (normalize_model m).2.1 = (add_slack_variables m2).2 := rfl
  have hlen4 : (normalize_model m).1.constraints.length =
      m2.constraints.length := by
    rw [hnm1]
    unfold add_surplus_variables
    rw [hsurp.1]
    unfold add_slack_variables
    exact hslack.1
  have hslacklen : (normalize_model m).2.1.length =
      m2.constraints.countP (fun c => decide (c.type = ConstraintType.le)) := by
    rw [hnm2]
    unfold add_slack_variables
    rw [hslack.2.2, List.take_length]
  have htypes : ∀ i,
      ((normalize_model m).1.constraints.getD i Constraint.dflt).type =
        (m2.constraints.getD i Constraint.dflt).type := by
    intro i
    rw [hnm1]
    calc ((add_surplus_variables (add_slack_variables m2).1).1.constraints.getD
            i Constraint.dflt).type
        = ((add_slack_variables m2).1.constraints.getD i Constraint.dflt).type := by
          unfold add_surplus_variables
          exact hsurp.2 i
      _ = (m2.constraints.getD i Constraint.dflt).type := by
          unfold add_slack_variables
          exact hslack.2.1 i
  have hmain : presolve_needed m = true ↔
      ∃ c ∈ (normalize_model m).1.constraints,
        c.type = ConstraintType.ge ∨ c.type = ConstraintType.eq := by
    unfold presolve_needed
    rw [decide_eq_true_iff, hlen4, hslacklen,
      countP_lt_iff_exists_ge_eq m2.constraints]
    exact (exists_ge_eq_transfer _ _ (by rw [hlen4]) htypes).symm
  refine ⟨hmain, ?_, ?_⟩
  · intro hfalse
    have hcond : ¬ ((normalize_model m).2.1.length <
        (normalize_model m).1.constraints.length) := by
      intro hcon
      rw [show presolve_needed m = decide ((normalize_model m).2.1.length <
        (normalize_model m).1.constraints.length) from rfl] at hfalse
      rw [decide_eq_true hcon] at hfalse
      exact Bool.noConfusion hfalse
    unfold initial_tableaux_or_presolve
    rw [if_neg hcond]
  · intro htrue
    have hcond : (normalize_model m).2.1.length <
        (normalize_model m).1.constraints.length := by
      rw [show presolve_needed m = decide ((normalize_model m).2.1.length <
        (normalize_model m).1.constraints.length) from rfl] at htrue
      exact of_decide_eq_true htrue
    unfold initial_tableaux_or_presolve
    rw [if_pos hcond]

/-- Witness for C8: the all-`≤` model of scenario 2 skips the presolve
and starts Phase II from the basic initial tableau. -/
theorem c8_witness :
    presolve_needed exampleModel9 = false ∧
    initial_tableaux_or_presolve 10 exampleModel9 =
      .ok (basic_initial_tableaux (normalize_model exampleModel9).1) :=
  ⟨by with_unfolding_all decide,
   (c8_presolve_iff_ge_or_eq 10 exampleModel9).2.1
     (by with_unfolding_all decide)⟩

/-! ## The infeasibility check (C1) -/

/-- **C1** (amended): `solve` raises `Infeasible` exactly when the
presolve runs, its Phase I optimisation succeeds, and an artificial
variable's index remains in the extracted basis — the value of the
artificial variable is not consulted, so a degenerate artificial
variable at value exactly 0 also raises. -/
theorem c1_infeasible_iff_artificial_in_basis (fuel : Nat) (m : Model) :
    lab04_solve fuel m = .error .infeasible ↔
      presolve_needed m = true ∧
      ∃ T1, optimize fuel (presolve_initial_tableaux
              (add_artificial_variables (normalize_model m).1).1
              (add_artificial_variables (normalize_model m).1).2) = .ok T1 ∧
        artifical_variables_are_positive T1
          (add_artificial_variables (normalize_model m).1).2 = true := by
  by_cases hcond : (normalize_model m).2.1.length <
      (normalize_model m).1.constraints.length
  · have hneed : presolve_needed m = true := by
      rw [show presolve_needed m = decide ((normalize_model m).2.1.length <
        (normalize_model m).1.constraints.length) from rfl]
      exact decide_eq_true hcond
    cases hopt : optimize fuel (presolve_initial_tableaux
        (add_artificial_variables (normalize_model m).1).1
        (add_artificial_variables (normalize_model m).1).2) with
    | error e =>
      have hinit : initial_tableaux_or_presolve fuel m = .error e := by
        simp only [initial_tableaux_or_presolve, if_pos hcond, presolve, hopt]
      simp only [lab04_solve, hinit]
      constructor
      · intro h
        have he : e = SimplexError.infeasible := Except.error.inj h
        rw [he] at hopt
        exact absurd hopt (optimize_ne_infeasible fuel _)
      · rintro ⟨-, T1, hT1, -⟩
        exact Except.noConfusion hT1
    | ok T1 =>
      by_cases hart : artifical_variables_are_positive T1
          (add_artificial_variables (normalize_model m).1).2 = true
      · have hinit : initial_tableaux_or_presolve fuel m =
            .error .infeasible := by
          simp only [initial_tableaux_or_presolve, if_pos hcond, presolve, hopt,
            if_pos hart]
        constructor
        · intro _
          exact ⟨hneed, T1, rfl, hart⟩
        · intro _
          simp only [lab04_solve, hinit]
      · have hartf : artifical_variables_are_positive T1
            (add_artificial_variables (normalize_model m).1).2 = false :=
          eq_false_of_ne_true hart
        have hinit : initial_tableaux_or_presolve fuel m =
            .ok (fix_cost_row_to_the_basis
              (restore_original_cost_row
                (remove_artificial_variables T1
                  (add_artificial_variables (normalize_model m).1).2)
                (normalize_model m).1)
              (extract_basis T1)) := by
          simp only [initial_tableaux_or_presolve, if_pos hcond, presolve, hopt,
            hartf]
          rfl
        simp only [lab04_solve, hinit]
        cases hopt2 : optimize fuel (fix_cost_row_to_the_basis
            (restore_original_cost_row
              (remove_artificial_variables T1
                (add_artificial_variables (normalize_model m).1).2)
              (normalize_model m).1)
            (extract_basis T1)) with
        | error e =>
          constructor
          · intro h
            have he : e = SimplexError.infeasible := Except.error.inj h
            rw [he] at hopt2
            exact absurd hopt2 (optimize_ne_infeasible fuel _)
          · rintro ⟨-, T1', hT1', hart'⟩
            cases Except.ok.inj hT1'
            rw [hart'] at hartf
            exact Bool.noConfusion hartf
        | ok tf =>
          constructor
          · intro h
            exact Except.noConfusion h
          · rintro ⟨-, T1', hT1', hart'⟩
            cases Except.ok.inj hT1'
            rw [hart'] at hartf
            exact Bool.noConfusion hartf
  · have hneed : presolve_needed m = false := by
      rw [show presolve_needed m = decide ((normalize_model m).2.1.length <
        (normalize_model m).1.constraints.length) from rfl]
      exact decide_eq_false hcond
    have hinit : initial_tableaux_or_presolve fuel m =
        .ok (basic_initial_tableaux (normalize_model m).1) := by
      simp only [initial_tableaux_or_presolve, if_neg hcond]
    simp only [lab04_solve, hinit]
    cases hopt : optimize fuel (basic_initial_tableaux (normalize_model m).1) with
    | error e =>
      constructor
      · intro h
        have he : e = SimplexError.infeasible := Except.error.inj h
        rw [he] at hopt
        exact absurd hopt (optimize_ne_infeasible fuel _)
      · rintro ⟨hne, -⟩
        rw [hneed] at hne
        exact Bool.noConfusion hne
    | ok tf =>
      constructor
      · intro h
        exact Except.noConfusion h
      · rintro ⟨hne, -⟩
        rw [hneed] at hne
        exact Bool.noConfusion hne

/-- Counterexample to **C1** as stated: `exampleModel1` is feasible
(`x1 = 0` satisfies `x1 ≤ 0` and `x1 = 0`), its Phase I terminates with
the artificial variable (index 2) in the basis at value exactly 0 — yet
`solve` raises `Infeasible` instead of proceeding to Phase II. -/
theorem c1_counterexample :
    lab04_solve 10 exampleModel1 = .error .infeasible ∧
    optimize 10 (presolve_initial_tableaux
        (add_artificial_variables (normalize_model exampleModel1).1).1
        (add_artificial_variables (normalize_model exampleModel1).1).2) =
      .ok [[0, 1, 0, 0], [1, 1, 0, 0], [0, -1, 1, 0]] ∧
    (add_artificial_variables (normalize_model exampleModel1).1).2 = [(2, 1)] ∧
    extract_basis [[0, 1, 0, 0], [1, 1, 0, 0], [0, -1, 1, 0]] = [0, 2] ∧
    (extract_solution [[0, 1, 0, 0], [1, 1, 0, 0], [0, -1, 1, 0]]).getD 2 0 = 0 ∧
    (exampleModel1.constraints.getD 0 Constraint.dflt).expression.evaluate [0] ≤
      (exampleModel1.constraints.getD 0 Constraint.dflt).bound ∧
    (exampleModel1.constraints.getD 1 Constraint.dflt).expression.evaluate [0] =
      (exampleModel1.constraints.getD 1 Constraint.dflt).bound := by
  with_unfolding_all decide

/-! ## Solution binding (C3), the scenario-2 value (C9) and the frame
property (C10) -/

/-- **C3** (amended): when the general two-phase lab04 `solve`
succeeds, the returned `Solution` is bound to the caller's original
model, has exactly one value per original variable, and its
`objective_value()` evaluates the caller's original objective on the
assignment.  (The lab03 `Solver.solve`, which the claim also covers,
violates this: see the counterexample.) -/
theorem c3_solution_bound_to_original (fuel : Nat) (m : Model) (s : Solution)
    (h : lab04_solve fuel m = .ok s) :
    s.model = m ∧ s.assignment.length = m.variables.length ∧
    s.objective_value = m.objective.evaluate s.assignment := by
  unfold lab04_solve at h
  cases hinit : initial_tableaux_or_presolve fuel m with
  | error e =>
    simp only [hinit] at h
    exact Except.noConfusion h
  | ok T =>
    simp only [hinit] at h
    cases hopt : optimize fuel T with
    | error e =>
      simp only [hopt] at h
      exact Except.noConfusion h
    | ok Tf =>
      simp only [hopt] at h
      have hs : s = translate_to_original_model (extract_solution Tf) m :=
        (Except.ok.inj h).symm
      subst hs
      refine ⟨rfl, ?_, rfl⟩
      unfold translate_to_original_model
      exact List.length_map _ _

/-- Witness for C3 (amended): the lab04 solver on the scenario-2 model
returns the solution bound to that very model. -/
theorem c3_witness :
    lab04_solve 10 exampleModel9 = .ok ⟨exampleModel9, [9/4, 15/4]⟩ ∧
    ((Solution.mk exampleModel9 [9/4, 15/4]).model = exampleModel9 ∧
      (Solution.mk exampleModel9 [9/4, 15/4]).assignment.length =
        exampleModel9.variables.length ∧
      (Solution.mk exampleModel9 [9/4, 15/4]).objective_value =
        exampleModel9.objective.evaluate
          (Solution.mk exampleModel9 [9/4, 15/4]).assignment) :=
  ⟨by with_unfolding_all decide,
   c3_solution_bound_to_original 10 exampleModel9 ⟨exampleModel9, [9/4, 15/4]⟩
     (by with_unfolding_all decide)⟩

/-- Counterexample to **C3** as stated (the claim also covers the lab03
`Solver.solve`): on the scenario-2 model the lab03 solver returns a
`Solution` bound to the internally normalized model — four assignment
entries (two slacks included) for a two-variable caller model, and the
bound model is not the caller's. -/
theorem c3_counterexample :
    (lab03_solve 10 exampleModel9).map (fun s => s.assignment.length) = .ok 4 ∧
    exampleModel9.variables.length = 2 ∧
    (lab03_solve 10 exampleModel9).map Solution.model ≠ .ok exampleModel9 ∧
    (lab03_solve 10 exampleModel9).map
      (fun s => s.model.variables.length) = .ok 4 := by
  with_unfolding_all decide

/-- Counterexample to **C9** as stated: the LP solve of the scenario-2
model returns the assignment `[9/4, 15/4]` with objective `165/4`
(= 41.25) — not `[0, 5]` with objective 40. -/
theorem c9_counterexample :
    (lab04_solve 10 exampleModel9).map Solution.assignment =
      .ok [9/4, 15/4] ∧
    ([9/4, 15/4] : List ℚ) ≠ [0, 5] ∧
    Solution.objective_value ⟨exampleModel9, [9/4, 15/4]⟩ = 165/4 ∧
    (165/4 : ℚ) ≠ 40 := by
  with_unfolding_all decide

set_option maxHeartbeats 2000000 in
/-- **C9** (amended): on `maximize 5x1+8x2` s.t. `x1+x2 ≤ 6`,
`5x1+9x2 ≤ 45`, Phase I is indeed skipped, and the LP solve returns
`x1 = 9/4, x2 = 15/4` with objective value `165/4`; the lab03 solver
returns the same point extended with its two zero slacks.  The
`[0, 5]` / 40 outcome asserted by `integer_01_solvable.py` is the
expected result of the *integer* branch-and-bound solve, not of the LP
`solve`. -/
theorem c9_example_lp_value :
    presolve_needed exampleModel9 = false ∧
    lab04_solve 10 exampleModel9 = .ok ⟨exampleModel9, [9/4, 15/4]⟩ ∧
    Solution.objective_value ⟨exampleModel9, [9/4, 15/4]⟩ = 165/4 ∧
    (lab03_solve 10 exampleModel9).map Solution.assignment =
      .ok [9/4, 15/4, 0, 0] := by
  with_unfolding_all decide

/-- **C10**: `solve` never mutates the caller's model.  With the
caller's object tracked explicitly through the call — the embedding of
the `deepcopy`-then-normalize discipline of both solvers — the
caller's model comes back unchanged while the result is the ordinary
solve result; and the internal copy is load-bearing, because
normalization genuinely produces a different model (slack variables
are appended, constraints rewritten). -/
theorem c10_solve_does_not_mutate_caller :
    (∀ (fuel : Nat) (m : Model), (lab04_solve_with_caller fuel m).2 = m) ∧
    (∀ (fuel : Nat) (m : Model),
      (lab04_solve_with_caller fuel m).1 = lab04_solve fuel (deepcopy m)) ∧
    (∀ (fuel : Nat) (m : Model), (lab03_solve_with_caller fuel m).2 = m) ∧
    (∀ (fuel : Nat) (m : Model),
      (lab03_solve_with_caller fuel m).1 = lab03_solve fuel (deepcopy m)) ∧
    (∀ m : Model, deepcopy m = m) ∧
    lab03_normalize_model exampleModel9 ≠ exampleModel9 ∧
    (normalize_model exampleModel1).1 ≠ exampleModel1 := by
  refine ⟨fun _ _ => rfl, fun _ _ => rfl, fun _ _ => rfl, fun _ _ => rfl,
    fun _ => rfl, ?_, ?_⟩
  · with_unfolding_all decide
  · with_unfolding_all decide

/-! ## Basis extraction (C7) -/

instance : Std.Antisymm (fun x1 x2 : ℚ => x1 ≤ x2) where
  antisymm h1 h2 := le_antisymm h1 h2

theorem rat_min?_iff (l : List ℚ) (a : ℚ) :
    l.min? = some a ↔ a ∈ l ∧ ∀ b ∈ l, a ≤ b :=
  List.min?_eq_some_iff (fun _ => le_refl _) min_choice (fun _ _ _ => le_min_iff)

theorem rat_max?_iff (l : List ℚ) (a : ℚ) :
    l.max? = some a ↔ a ∈ l ∧ ∀ b ∈ l, b ≤ a :=
  List.max?_eq_some_iff (fun _ => le_refl _) max_choice (fun _ _ _ => max_le_iff)

theorem pySet_length (l : List Int) (i v : Int) :
    (pySet l i v).length = l.length := by
  unfold pySet
  by_cases h : i < 0
  · rw [if_pos h, List.length_set]
  · rw [if_neg h, List.length_set]

/-- `basis[row - 1] = c` resolved: the previous slot for a positive
`row`, the last slot for `row = 0`. -/
theorem pySet_sub_one (l : List Int) (row : Nat) (v : Int) :
    pySet l ((row : Int) - 1) v =
      if row = 0 then l.set (l.length - 1) v else l.set (row - 1) v := by
  unfold pySet
  by_cases h : row = 0
  · subst h
    rw [if_pos (by omega : ((0 : Nat) : Int) - 1 < 0), if_pos rfl]
    congr 1
    omega
  · rw [if_neg (by omega : ¬ ((row : Int) - 1 < 0)), if_neg h]
    congr 1
    omega

theorem set_getD_cases {α : Type} (l : List α) (k : Nat) (v d : α) (r : Nat) :
    (l.set k v).getD r d = v ∨ (l.set k v).getD r d = l.getD r d := by
  by_cases hk : k = r
  · subst hk
    by_cases hlt : k < l.length
    · exact Or.inl (getD_set_self l k v d hlt)
    · right
      rw [List.getD_eq_getElem?_getD, List.getElem?_set, if_pos rfl,
        if_neg hlt, List.getD_eq_getElem?_getD,
        List.getElem?_eq_none (by omega : l.length ≤ k)]
  · exact Or.inr (getD_set_ne l k r v d hk)

theorem pySet_getD_cases (l : List Int) (i v : Int) (r : Nat) :
    (pySet l i v).getD r 0 = v ∨ (pySet l i v).getD r 0 = l.getD r 0 := by
  unfold pySet
  by_cases h : i < 0
  · rw [if_pos h]
    exact set_getD_cases _ _ _ _ _
  · rw [if_neg h]
    exact set_getD_cases _ _ _ _ _

theorem sum_zero_of_nonneg (l : List ℚ) (h0 : ∀ x ∈ l, 0 ≤ x)
    (hs : l.sum = 0) : ∀ x ∈ l, x = 0 := by
  induction l with
  | nil => intro x hx; cases hx
  | cons a l ih =>
    have ha : 0 ≤ a := h0 a (List.mem_cons_self a l)
    have hl : 0 ≤ l.sum :=
      List.sum_nonneg (fun x hx => h0 x (List.mem_cons_of_mem a hx))
    rw [List.sum_cons] at hs
    intro x hx
    rcases List.mem_cons.mp hx with rfl | hx
    · linarith
    · exact ih (fun y hy => h0 y (List.mem_cons_of_mem a hy)) (by linarith) x hx

theorem sum_of_unit_entries (l : List ℚ) :
    ∀ (i : Nat), i < l.length →
      (∀ (hi : i < l.length), l[i] = 1) →
      (∀ j, (hj : j < l.length) → j ≠ i → l[j] = 0) → l.sum = 1 := by
  induction l with
  | nil =>
    intro i hi _ _
    simp at hi
  | cons a l ih =>
    intro i hi h1 h0
    cases i with
    | zero =>
      rw [List.sum_cons]
      have hl : l.sum = 0 := by
        apply List.sum_eq_zero
        intro x hx
        obtain ⟨j, hj, rfl⟩ := List.mem_iff_getElem.mp hx
        have hjc : j + 1 < (a :: l).length := by
          rw [List.length_cons]; omega
        have := h0 (j + 1) hjc (Nat.succ_ne_zero j)
        simpa using this
      have ha : a = 1 := by simpa using h1 hi
      rw [ha, hl]
      norm_num
    | succ i =>
      rw [List.sum_cons]
      have hi' : i < l.length := by
        rw [List.length_cons] at hi; omega
      have ha : a = 0 := by
        have := h0 0 (by rw [List.length_cons]; omega) (by omega)
        simpa using this
      have hl : l.sum = 1 := by
        apply ih i hi'
        · intro hi''
          have := h1 hi
          simpa using this
        · intro j hj hne
          have hjc : j + 1 < (a :: l).length := by
            rw [List.length_cons]; omega
          have := h0 (j + 1) hjc (by omega)
          simpa using this
      rw [ha, hl]
      norm_num

theorem zeros_off_unit (l : List ℚ) :
    ∀ (i : Nat) (hi : i < l.length), (∀ x ∈ l, 0 ≤ x) → l.sum = 1 →
      l[i] = 1 → ∀ j, (hj : j < l.length) → j ≠ i → l[j] = 0 := by
  induction l with
  | nil =>
    intro i hi
    simp at hi
  | cons a l ih =>
    intro i hi h0 hsum h1 j hj hne
    cases i with
    | zero =>
      have ha : a = 1 := by simpa using h1
      rw [List.sum_cons, ha] at hsum
      have hl0 : l.sum = 0 := by linarith
      have hall := sum_zero_of_nonneg l
        (fun x hx => h0 x (List.mem_cons_of_mem a hx)) hl0
      cases j with
      | zero => exact absurd rfl hne
      | succ j =>
        have hj' : j < l.length := by rw [List.length_cons] at hj; omega
        have := hall (l[j]) (List.getElem_mem hj')
        simpa using this
    | succ i =>
      have hi' : i < l.length := by rw [List.length_cons] at hi; omega
      have hone : l[i] = 1 := by simpa using h1
      have hge : l[i] ≤ l.sum :=
        List.single_le_sum (fun x hx => h0 x (List.mem_cons_of_mem a hx)) _
          (List.getElem_mem hi')
      have ha0 : 0 ≤ a := h0 a (List.mem_cons_self a l)
      rw [List.sum_cons] at hsum
      have ha : a = 0 := by
        rw [hone] at hge
        linarith
      have hlsum : l.sum = 1 := by linarith
      cases j with
      | zero => simpa using ha
      | succ j =>
        have hj' : j < l.length := by rw [List.length_cons] at hj; omega
        have := ih i hi' (fun x hx => h0 x (List.mem_cons_of_mem a hx)) hlsum
          hone j hj' (by omega)
        simpa using this

theorem column_getElem (T : Table) (c i : Nat)
    (hi2 : i < (T.map (fun row => row.getD c 0)).length) :
    (T.map (fun row => row.getD c 0))[i] = entry T i c := by
  have hi : i < T.length := by
    rw [List.length_map] at hi2
    exact hi2
  rw [List.getElem_map]
  unfold entry
  rw [List.getD_eq_getElem T [] hi]

/-- The basis condition `extract_basis` tests on column `c`. -/
def basis_cond (T : Table) (c : Nat) : Prop :=
  (T.map (fun row => row.getD c 0)).min? = some 0 ∧
  (T.map (fun row => row.getD c 0)).max? = some 1 ∧
  (T.map (fun row => row.getD c 0)).sum = 1

instance (T : Table) (c : Nat) : Decidable (basis_cond T c) := by
  unfold basis_cond
  infer_instance

/-- The slot of the basis list that `extract_basis` assigns to column
`c`: Python slot `row - 1`, which is the *last* slot when the column's
first 1 sits in the cost row. -/
def basis_slot (T : Table) (c : Nat) : Nat :=
  if (T.map (fun row => row.getD c 0)).findIdx (fun v => decide (v = 1)) = 0
  then T.length - 2
  else (T.map (fun row => row.getD c 0)).findIdx (fun v => decide (v = 1)) - 1

theorem findIdx_one_of_unit (l : List ℚ) (r : Nat) (hr : r < l.length)
    (h1 : l[r] = 1) (h0 : ∀ j, (hj : j < l.length) → j ≠ r → l[j] = 0) :
    l.findIdx (fun v => decide (v = 1)) = r := by
  have hlt : l.findIdx (fun v => decide (v = 1)) < l.length := by
    rw [List.findIdx_lt_length]
    exact ⟨l[r], List.getElem_mem hr, by simp [h1]⟩
  by_contra hne
  have hfound := @List.findIdx_getElem _ (fun v => decide (v = 1)) l hlt
  rw [h0 _ hlt hne] at hfound
  simp at hfound

theorem findIdx_column_of_unit (T : Table) (c r : Nat) (hr : r < T.length)
    (hu : isUnitColAt T c r) :
    (T.map (fun row => row.getD c 0)).findIdx (fun v => decide (v = 1)) = r := by
  have hlen : (T.map (fun row => row.getD c 0)).length = T.length :=
    List.length_map _ _
  apply findIdx_one_of_unit _ r (by omega)
  · rw [column_getElem T c r (by rw [List.length_map]; exact hr)]
    exact hu.1
  · intro j hj hne
    have hjT : j < T.length := by omega
    rw [column_getElem T c j (by rw [List.length_map]; exact hjT)]
    exact hu.2 j hjT hne

/-- The condition `extract_basis` tests is exactly "the column is a
unit vector" — provided the table has at least two rows (a one-row
table would fail the `min = 0` test on a unit column). -/
theorem basis_cond_iff_unit (T : Table) (c : Nat) (h2 : 2 ≤ T.length) :
    basis_cond T c ↔ ∃ r, r < T.length ∧ isUnitColAt T c r := by
  have hlen : (T.map (fun row => row.getD c 0)).length = T.length :=
    List.length_map _ _
  constructor
  · rintro ⟨hmin, hmax, hsum⟩
    obtain ⟨-, h0le⟩ := (rat_min?_iff _ 0).mp hmin
    obtain ⟨h1mem, -⟩ := (rat_max?_iff _ 1).mp hmax
    obtain ⟨i, hi, hone⟩ := List.mem_iff_getElem.mp h1mem
    have hiT : i < T.length := by omega
    refine ⟨i, hiT, ?_, ?_⟩
    · rw [← column_getElem T c i (by rw [List.length_map]; exact hiT)]
      exact hone
    · intro r hrT hne
      have hrl : r < (T.map (fun row => row.getD c 0)).length := by omega
      have := zeros_off_unit _ i hi h0le hsum hone r hrl hne
      rw [← column_getElem T c r (by rw [List.length_map]; exact hrT)]
      exact this
  · rintro ⟨r, hr, hu⟩
    have hrl2 : r < (T.map (fun row => row.getD c 0)).length := by omega
    have hone : (T.map (fun row => row.getD c 0))[r] = 1 := by
      rw [column_getElem T c r hrl2]
      exact hu.1
    have hzero : ∀ j, (hj : j < (T.map (fun row => row.getD c 0)).length) →
        j ≠ r → (T.map (fun row => row.getD c 0))[j] = 0 := by
      intro j hj hne
      have hjT : j < T.length := by omega
      rw [column_getElem T c j (by rw [List.length_map]; exact hjT)]
      exact hu.2 j hjT hne
    have hb : ∀ b ∈ T.map (fun row => row.getD c 0), b = 0 ∨ b = 1 := by
      intro b hbm
      obtain ⟨j, hj, rfl⟩ := List.mem_iff_getElem.mp hbm
      by_cases hjr : j = r
      · subst hjr
        exact Or.inr hone
      · exact Or.inl (hzero j hj hjr)
    refine ⟨?_, ?_, ?_⟩
    · rw [rat_min?_iff]
      constructor
      · -- some other row gives a 0 entry
        have hr' : (if r = 0 then 1 else 0) < T.length := by
          by_cases h : r = 0 <;> simp [h] <;> omega
        have hner : (if r = 0 then 1 else 0) ≠ r := by
          by_cases h : r = 0 <;> simp [h] <;> omega
        have := hzero (if r = 0 then 1 else 0) (by omega) hner
        exact List.mem_iff_getElem.mpr ⟨_, by omega, this⟩
      · intro b hbm
        rcases hb b hbm with rfl | rfl
        · exact le_refl 0
        · norm_num
    · rw [rat_max?_iff]
      constructor
      · exact List.mem_iff_getElem.mpr ⟨r, by omega, hone⟩
      · intro b hbm
        rcases hb b hbm with rfl | rfl
        · norm_num
        · exact le_refl 1
    · exact sum_of_unit_entries _ r (by omega) (fun _ => hone) hzero

theorem basis_step_length (T : Table) (basis : List Int) (c : Nat) :
    (basis_step T basis c).length = basis.length := by
  simp only [basis_step]
  by_cases h : (T.map (fun row => row.getD c 0)).min? = some 0 ∧
      (T.map (fun row => row.getD c 0)).max? = some 1 ∧
      (T.map (fun row => row.getD c 0)).sum = 1
  · rw [if_pos h, pySet_length]
  · rw [if_neg h]

/-- `basis_step` rephrased through `basis_cond` and `basis_slot`, for a
basis list of the length `extract_basis` uses. -/
theorem basis_step_eq (T : Table) (basis : List Int) (c : Nat)
    (hlen : basis.length = T.length - 1) :
    basis_step T basis c =
      if basis_cond T c then basis.set (basis_slot T c) (c : Int)
      else basis := by
  simp only [basis_step, basis_cond, basis_slot]
  by_cases hcond : (T.map (fun row => row.getD c 0)).min? = some 0 ∧
      (T.map (fun row => row.getD c 0)).max? = some 1 ∧
      (T.map (fun row => row.getD c 0)).sum = 1
  · rw [if_pos hcond, if_pos hcond, pySet_sub_one, hlen]
    by_cases hf : (T.map (fun row => row.getD c 0)).findIdx
        (fun v => decide (v = 1)) = 0
    · rw [if_pos hf, if_pos hf,
        show T.length - 1 - 1 = T.length - 2 from by omega]
    · rw [if_neg hf, if_neg hf]
  · rw [if_neg hcond, if_neg hcond]

theorem fold_basis_length (T : Table) (cs : List Nat) :
    ∀ basis : List Int, (cs.foldl (basis_step T) basis).length = basis.length := by
  induction cs with
  | nil => intro basis; rfl
  | cons c cs ih =>
    intro basis
    rw [List.foldl_cons, ih, basis_step_length]

theorem fold_basis_keeps (T : Table) (cs : List Nat) :
    ∀ (basis : List Int) (r : Nat), basis.getD r 0 ≠ -1 →
      (cs.foldl (basis_step T) basis).getD r 0 ≠ -1 := by
  induction cs with
  | nil => intro basis r h; exact h
  | cons c cs ih =>
    intro basis r h
    rw [List.foldl_cons]
    apply ih
    simp only [basis_step]
    by_cases hcond : (T.map (fun row => row.getD c 0)).min? = some 0 ∧
        (T.map (fun row => row.getD c 0)).max? = some 1 ∧
        (T.map (fun row => row.getD c 0)).sum = 1
    · rw [if_pos hcond]
      rcases pySet_getD_cases basis
          (((T.map (fun row => row.getD c 0)).findIdx
            (fun v => decide (v = 1)) : Int) - 1) (c : Int) r with hc | hc
      · rw [hc]
        omega
      · rw [hc]
        exact h
    · rw [if_neg hcond]
      exact h

theorem fold_basis_entries (T : Table) (cs : List Nat) :
    ∀ basis : List Int,
      basis.length = T.length - 1 →
      (∀ c ∈ cs, c < width T - 1) →
      (∀ r, r < T.length - 1 →
        basis.getD r 0 = -1 ∨
        ∃ c, c < width T - 1 ∧ basis_cond T c ∧ basis_slot T c = r ∧
          basis.getD r 0 = (c : Int)) →
      ∀ r, r < T.length - 1 →
        (cs.foldl (basis_step T) basis).getD r 0 = -1 ∨
        ∃ c, c < width T - 1 ∧ basis_cond T c ∧ basis_slot T c = r ∧
          (cs.foldl (basis_step T) basis).getD r 0 = (c : Int) := by
  induction cs with
  | nil =>
    intro basis _ _ hinv r hr
    exact hinv r hr
  | cons c cs ih =>
    intro basis hlen hcs hinv r hr
    rw [List.foldl_cons]
    refine ih (basis_step T basis c)
      (by rw [basis_step_length]; exact hlen)
      (fun c' hc' => hcs c' (List.mem_cons_of_mem c hc')) ?_ r hr
    intro r' hr'
    rw [basis_step_eq T basis c hlen]
    by_cases hcond : basis_cond T c
    · rw [if_pos hcond]
      by_cases hslot : basis_slot T c = r'
      · right
        refine ⟨c, hcs c (List.mem_cons_self c cs), hcond, hslot, ?_⟩
        rw [← hslot]
        exact getD_set_self _ _ _ _ (by rw [hlen, hslot]; exact hr')
      · rw [getD_set_ne _ _ _ _ _ hslot]
        exact hinv r' hr'
    · rw [if_neg hcond]
      exact hinv r' hr'

theorem fold_basis_covers (T : Table) (cs : List Nat) :
    ∀ basis : List Int, basis.length = T.length - 1 →
      ∀ c, c ∈ cs → basis_cond T c → basis_slot T c < T.length - 1 →
        (cs.foldl (basis_step T) basis).getD (basis_slot T c) 0 ≠ -1 := by
  induction cs with
  | nil =>
    intro _ _ c hc
    cases hc
  | cons c' cs ih =>
    intro basis hlen c hc hcond hslot
    rw [List.foldl_cons]
    rcases List.mem_cons.mp hc with rfl | hc
    · apply fold_basis_keeps
      rw [basis_step_eq T basis c hlen, if_pos hcond,
        getD_set_self _ _ _ _ (by rw [hlen]; exact hslot)]
      omega
    · exact ih (basis_step T basis c')
        (by rw [basis_step_length]; exact hlen) c hc hcond hslot

/-- **C7** (amended): `extract_basis` always returns exactly
`|constraints|` entries, and on any tableau — with at least one
constraint row — in which every constraint row has a unit column and no
column is a unit vector with its 1 in the cost row, every returned
entry is a column index whose column is a unit vector with its single 1
in the constraint row it is assigned to.  (The cost-row proviso cannot
be dropped: a column that is a unit vector in the cost row is recorded,
through Python's `-1` indexing, in the last constraint row's slot, and
solver runs reach such states — see the counterexample.) -/
theorem c7_extract_basis_unit_columns (T : Table) (h2 : 2 ≤ T.length)
    (hb : ∀ r, 1 ≤ r → r < T.length →
      ∃ c, c < width T - 1 ∧ isUnitColAt T c r)
    (hc0 : ∀ c, c < width T - 1 → ¬ isUnitColAt T c 0) :
    (extract_basis T).length = T.length - 1 ∧
    ∀ r, r < T.length - 1 → ∃ c, c < width T - 1 ∧
      (extract_basis T).getD r 0 = (c : Int) ∧ isUnitColAt T c (r + 1) := by
  have hlen0 : (List.replicate (T.length - 1) (-1 : Int)).length = T.length - 1 :=
    List.length_replicate _ _
  constructor
  · unfold extract_basis
    rw [fold_basis_length, hlen0]
  · intro r hr
    obtain ⟨cstar, hcw, hcu⟩ := hb (r + 1) (by omega) (by omega)
    have hcondstar : basis_cond T cstar :=
      (basis_cond_iff_unit T cstar h2).mpr ⟨r + 1, by omega, hcu⟩
    have hslotstar : basis_slot T cstar = r := by
      unfold basis_slot
      rw [findIdx_column_of_unit T cstar (r + 1) (by omega) hcu]
      simp
    have hinit : ∀ r', r' < T.length - 1 →
        (List.replicate (T.length - 1) (-1 : Int)).getD r' 0 = -1 ∨
        ∃ c, c < width T - 1 ∧ basis_cond T c ∧ basis_slot T c = r' ∧
          (List.replicate (T.length - 1) (-1 : Int)).getD r' 0 = (c : Int) := by
      intro r' hr'
      left
      rw [List.getD_eq_getElem _ _ (by rw [hlen0]; exact hr'),
        List.getElem_replicate]
    have hcover := fold_basis_covers T (List.range (width T - 1))
      (List.replicate (T.length - 1) (-1)) hlen0 cstar
      (List.mem_range.mpr hcw) hcondstar (by rw [hslotstar]; exact hr)
    have hentries := fold_basis_entries T (List.range (width T - 1))
      (List.replicate (T.length - 1) (-1)) hlen0
      (fun c hc => List.mem_range.mp hc) hinit r hr
    rw [hslotstar] at hcover
    rcases hentries with hm1 | ⟨c, hcw', hcond, hslot, hval⟩
    · exact absurd hm1 hcover
    · obtain ⟨r0, hr0, hu⟩ := (basis_cond_iff_unit T c h2).mp hcond
      have hfind0 : (T.map (fun row => row.getD c 0)).findIdx
          (fun v => decide (v = 1)) = r0 :=
        findIdx_column_of_unit T c r0 hr0 hu
      have hr0ne : r0 ≠ 0 := by
        intro h0
        subst h0
        exact hc0 c hcw' hu
      have hslot0 : basis_slot T c = r0 - 1 := by
        unfold basis_slot
        rw [hfind0, if_neg hr0ne]
      have hr0eq : r0 = r + 1 := by omega
      refine ⟨c, hcw', ?_, ?_⟩
      · exact hval
      · rw [← hr0eq]
        exact hu

/-- One loop pass on the lab03 tableau of `exampleModel7` produces
`counterTable7`. -/
def counterTable7 : Table :=
  [[0, 1, 0, 0, 1, 3], [0, 0, 1, 1, 0, 5], [1, 0, 0, 0, 1, 3]]

/-- Counterexample to **C7** as stated: starting from the initial
tableau of `exampleModel7`, the optimisation loop takes one pass (the
state is neither optimal nor unbounded) and reaches `counterTable7`;
there `extract_basis` assigns column 1 to the last constraint row
(slot 1, i.e. row 2), yet column 1 is not a unit vector in row 2 — its
single 1 sits in the cost row, and Python's `basis[-1]` recorded it in
the last slot. -/
theorem c7_counterexample :
    is_optimal (basic_initial_tableaux (lab03_normalize_model exampleModel7))
      = false ∧
    is_unbounded (basic_initial_tableaux (lab03_normalize_model exampleModel7))
      (choose_entering_variable
        (basic_initial_tableaux (lab03_normalize_model exampleModel7)))
      = false ∧
    pivotStep (basic_initial_tableaux (lab03_normalize_model exampleModel7)) =
      counterTable7 ∧
    extract_basis counterTable7 = [3, 1] ∧
    (extract_basis counterTable7).getD 1 0 = (1 : Int) ∧
    ¬ isUnitColAt counterTable7 1 2 ∧
    entry counterTable7 0 1 = 1 := by
  with_unfolding_all decide

/-- Concrete table for the C7 witness: slack-style unit columns for
both constraint rows, no unit column in the cost row. -/
def witnessTable7 : Table := [[0, 0, -3, 1], [1, 0, 2, 4], [0, 1, 5, 6]]

/-- Witness for C7 (amended): hypotheses and conclusion of
`c7_extract_basis_unit_columns` hold at `witnessTable7`. -/
theorem c7_witness :
    (2 ≤ witnessTable7.length ∧
     (∀ r, 1 ≤ r → r < witnessTable7.length →
       ∃ c, c < width witnessTable7 - 1 ∧ isUnitColAt witnessTable7 c r) ∧
     (∀ c, c < width witnessTable7 - 1 → ¬ isUnitColAt witnessTable7 c 0)) ∧
    ((extract_basis witnessTable7).length = witnessTable7.length - 1 ∧
     ∀ r, r < witnessTable7.length - 1 → ∃ c, c < width witnessTable7 - 1 ∧
       (extract_basis witnessTable7).getD r 0 = (c : Int) ∧
       isUnitColAt witnessTable7 c (r + 1)) := by
  have hb : ∀ r, 1 ≤ r → r < witnessTable7.length →
      ∃ c, c < width witnessTable7 - 1 ∧ isUnitColAt witnessTable7 c r := by
    intro r h1 h2
    rw [show witnessTable7.length = 3 from rfl] at h2
    interval_cases r
    · exact ⟨0, by with_unfolding_all decide, by with_unfolding_all decide⟩
    · exact ⟨1, by with_unfolding_all decide, by with_unfolding_all decide⟩
  have hc0 : ∀ c, c < width witnessTable7 - 1 →
      ¬ isUnitColAt witnessTable7 c 0 := by
    intro c hc
    rw [show width witnessTable7 = 4 from rfl] at hc
    interval_cases c
    · with_unfolding_all decide
    · with_unfolding_all decide
    · with_unfolding_all decide
  exact ⟨⟨by with_unfolding_all decide, hb, hc0⟩,
    c7_extract_basis_unit_columns witnessTable7
      (by with_unfolding_all decide) hb hc0⟩

end Saport
